import Mathlib

/-!
Verification of the hand-written indentation-driven configuration parser in
`scripts/build_dashboard.py` (functions `_strip_quotes`, `_parse_scalar`,
`_parse_block`, `_parse_map`, `_parse_block_scalar`, `parse_yaml`).

The embedding works over `List Char` for lines (a line never contains a
newline).  Python string helpers (`strip`, `lstrip`, `rstrip`, slicing,
`split(":", 1)`, `startswith`) are modelled character-for-character; the
default whitespace set is the ASCII whitespace characters that can occur in a
line of text.  The two loops `_parse_block` and `_parse_map` are mutually
recursive through nested blocks, so they are embedded as fuel-indexed
functions returning `Option (Except PyErr _)`: `Option.none` means the fuel
ran out (proved unreachable for fuel `lines.length + 1`), `Except.error`
models an uncaught Python exception (`AttributeError` from `dict.append`,
`TypeError` from `list[str] = _`, `ValueError` from the root check).
-/

/-- A line of input: the characters of a Python `str` holding one line. -/
abbrev Ln : Type := List Char

/-- Convert a string literal to its character list, for concrete inputs. -/
def str (s : String) : Ln := s.toList

/-- Python `str.isspace` for the ASCII whitespace characters, governing the
default `strip`/`lstrip`/`rstrip`. -/
def pyIsSpace (c : Char) : Bool :=
  c == ' ' || c == '\t' || c == '\n' || c == '\r' || c == '\x0b' || c == '\x0c'

/-- Python `s.lstrip(" ")`: drop leading space characters only. -/
def pyLstripSpaces (l : Ln) : Ln := l.dropWhile (fun c => c == ' ')

/-- Python `s.lstrip()`: drop leading whitespace. -/
def pyLstrip (l : Ln) : Ln := l.dropWhile pyIsSpace

/-- Python `s.rstrip()`: drop trailing whitespace. -/
def pyRstrip (l : Ln) : Ln := (l.reverse.dropWhile pyIsSpace).reverse

/-- Python `s.strip()`: drop whitespace on both ends. -/
def pyStrip (l : Ln) : Ln := pyRstrip (pyLstrip l)

/-- `len(raw) - len(raw.lstrip(" "))`: the count of leading spaces, the
indentation measure used throughout the parser. -/
def pyIndentOf (l : Ln) : Nat := l.length - (pyLstripSpaces l).length

/-- Python `line.split(":", 1)`: the part before the first `:` and the part
after it (callers only use it under an `":" in line` guard). -/
def splitColon1 (l : Ln) : Ln × Ln :=
  (l.takeWhile (fun c => c != ':'), (l.dropWhile (fun c => c != ':')).drop 1)

/-- Python `":" in line` (a one-character substring test). -/
def hasColon (l : Ln) : Bool := l.contains ':'

/-- The single-quote character, `'`. -/
def sqCh : Char := Char.ofNat 39

/-- The double-quote character, `"`. -/
def dqCh : Char := '"'

/-- The `- ` marker that begins a sequence item. -/
def dashSp : Ln := ['-', ' ']

/-- `_strip_quotes` from the source: strip one outer pair of matching quote
characters when the value both starts and ends with that character.  (For the
one-character value consisting of a single quote, Python's
`startswith`/`endswith` both succeed on the same character and `value[1:-1]`
is empty.) -/
def _strip_quotes (value : Ln) : Ln :=
  if ([dqCh].isPrefixOf value && [dqCh].isSuffixOf value)
      || ([sqCh].isPrefixOf value && [sqCh].isSuffixOf value) then
    (value.drop 1).dropLast
  else value

/-- `_parse_scalar` from the source: trim whitespace, then de-quote. -/
def _parse_scalar (value : Ln) : Ln := _strip_quotes (pyStrip value)

/-- The document tree.  `empty` models the Python `None` returned when a
block parse finds nothing at the expected indent. -/
inductive Node where
  | mapping (pairs : List (Ln × Node))
  | sequence (items : List Node)
  | scalar (s : Ln)
  | empty

/-- The uncaught Python exceptions the parser can raise. -/
inductive PyErr where
  | attributeError
  | typeError
  | valueError
deriving Repr, DecidableEq

/-- The running `obj` of `_parse_block`: `None`, a dict, or a list. -/
inductive BObj where
  | none
  | map (pairs : List (Ln × Node))
  | seq (items : List Node)

/-- The value `_parse_block` returns for its `obj`. -/
def BObj.toNode : BObj → Node
  | .none => .empty
  | .map pairs => .mapping pairs
  | .seq items => .sequence items

/-- `if obj is None: obj = []`. -/
def BObj.orSeq : BObj → BObj
  | .none => .seq []
  | o => o

/-- `if obj is None: obj = {}`. -/
def BObj.orMap : BObj → BObj
  | .none => .map []
  | o => o

/-- Python `d[k] = v` on a dict: replace in place when the key is present
(insertion order kept), append otherwise. -/
def dictSet (d : List (Ln × Node)) (k : Ln) (v : Node) : List (Ln × Node) :=
  if d.any (fun p => p.1 == k) then
    d.map (fun p => if p.1 == k then (k, v) else p)
  else d ++ [(k, v)]

/-- Python `d.update(extra)`: `d[k] = v` for each pair of `extra` in order. -/
def dictUpdate (d : List (Ln × Node)) (extra : List (Ln × Node)) : List (Ln × Node) :=
  extra.foldl (fun acc p => dictSet acc p.1 p.2) d

/-- Python `obj.append(v)`: succeeds on a list, raises `AttributeError` on a
dict or on `None`. -/
def bAppend (obj : BObj) (v : Node) : Except PyErr BObj :=
  match obj with
  | .seq items => .ok (.seq (items ++ [v]))
  | _ => .error .attributeError

/-- Python `obj[key] = v`: succeeds on a dict, raises `TypeError` on a list
(string index into a list) or on `None`. -/
def bSetKey (obj : BObj) (k : Ln) (v : Node) : Except PyErr BObj :=
  match obj with
  | .map pairs => .ok (.map (dictSet pairs k v))
  | _ => .error .typeError

/-- Bind for computations that can run out of fuel (`Option.none`) or raise
(`Except.error`). -/
def obind {α β : Type} (x : Option (Except PyErr α))
    (f : α → Option (Except PyErr β)) : Option (Except PyErr β) :=
  match x with
  | Option.none => Option.none
  | Option.some (Except.error e) => Option.some (Except.error e)
  | Option.some (Except.ok a) => f a

/-- Bind an exception-carrying value into a fuel-indexed computation. -/
def ebind {α β : Type} (x : Except PyErr α)
    (f : α → Option (Except PyErr β)) : Option (Except PyErr β) :=
  match x with
  | Except.error e => Option.some (Except.error e)
  | Except.ok a => f a

/-- The collection loop of `_parse_block_scalar`, over the suffix of lines
from the start index: gather `raw[indent:]` for each successive line whose
indentation is at least `indent`, stopping at the first line indented less
(or at end of input); also return the count of lines consumed. -/
def blockScalarRun (rest : List Ln) (indent : Nat) : List Ln × Nat :=
  match rest with
  | [] => ([], 0)
  | raw :: rs =>
    if pyIndentOf raw < indent then ([], 0)
    else
      let r := blockScalarRun rs indent
      (raw.drop indent :: r.1, r.2 + 1)

/-- `_parse_block_scalar` from the source: scan from line `start` while the
indentation stays at least `indent`, join the collected `raw[indent:]` pieces
with newlines, right-trim the result, and return it with the first
unconsumed index. -/
def _parse_block_scalar (lines : List Ln) (start indent : Nat) : Ln × Nat :=
  let r := blockScalarRun (lines.drop start) indent
  (pyRstrip (List.intercalate ['\n'] r.1), start + r.2)

/-- `raw[indent:]` for the line at index `i` (`[]` past the end). -/
def lineTail (lines : List Ln) (i indent : Nat) : Ln := (lines.getD i []).drop indent

/-- `line[2:].strip()` for the line at index `i`: the text of a sequence
item after its `- ` marker. -/
def itemAt (lines : List Ln) (i indent : Nat) : Ln := pyStrip ((lineTail lines i indent).drop 2)

/-- `line.split(":", 1)[0].strip()`: the key part of a `key: value` line. -/
def keyOf (l : Ln) : Ln := pyStrip (splitColon1 l).1

/-- `line.split(":", 1)[1].strip()`: the raw value part of a `key: value`
line. -/
def restOf (l : Ln) : Ln := pyStrip (splitColon1 l).2

mutual

/-- Fuel-indexed transcription of the `_parse_block` loop from the source.
`obj` is the running accumulator (`None` before the block is classified); the
loop body is transcribed branch for branch, with Python's locals (`raw`,
`line`, `item`, `key`, `rest`, `nxt`) inlined through the helper functions
above, and `obind`/`ebind` sequencing the fallible sub-steps in the order
Python evaluates them.  The two nested guards Python uses for the
multi-field continuation (`i < len(lines)` and the indent/dash test) are one
conjunction here, as both `else` paths leave the item unchanged. -/
def parseBlockAux (fuel : Nat) (lines : List Ln) (i indent : Nat) (obj : BObj) :
    Option (Except PyErr (Node × Nat)) :=
  match fuel with
  | 0 => Option.none
  | fuel + 1 =>
    if i < lines.length then
      if pyStrip (lines.getD i []) = [] ∨ ['#'].isPrefixOf (pyLstrip (lines.getD i [])) = true then
        parseBlockAux fuel lines (i + 1) indent obj
      else if pyIndentOf (lines.getD i []) < indent then Option.some (Except.ok (obj.toNode, i))
      else if pyIndentOf (lines.getD i []) > indent then Option.some (Except.ok (obj.toNode, i))
      else if dashSp.isPrefixOf (lineTail lines i indent) then
        if itemAt lines i indent = [] then
          obind (parseBlockAux fuel lines (i + 1) (indent + 2) BObj.none) fun vi =>
            ebind (bAppend obj.orSeq vi.1) fun obj2 =>
              parseBlockAux fuel lines vi.2 indent obj2
        else if hasColon (itemAt lines i indent) then
          obind
            (if restOf (itemAt lines i indent) = ['|'] then
              Option.some (Except.ok
                (dictSet [] (keyOf (itemAt lines i indent))
                  (Node.scalar (_parse_block_scalar lines (i + 1) (indent + 2)).1),
                 (_parse_block_scalar lines (i + 1) (indent + 2)).2))
            else if restOf (itemAt lines i indent) = [] then
              obind (parseBlockAux fuel lines (i + 1) (indent + 2) BObj.none) fun vi =>
                Option.some (Except.ok (dictSet [] (keyOf (itemAt lines i indent)) vi.1, vi.2))
            else
              Option.some (Except.ok
                (dictSet [] (keyOf (itemAt lines i indent))
                  (Node.scalar (_parse_scalar (restOf (itemAt lines i indent)))), i + 1)))
            fun di =>
          obind
            (if di.2 < lines.length ∧ pyIndentOf (lines.getD di.2 []) = indent + 2
                ∧ dashSp.isPrefixOf (pyLstrip (lines.getD di.2 [])) = false then
              obind (parseMapAux fuel lines di.2 (indent + 2) []) fun ei =>
                Option.some (Except.ok (dictUpdate di.1 ei.1, ei.2))
            else Option.some (Except.ok di))
            fun di2 =>
          ebind (bAppend obj.orSeq (Node.mapping di2.1)) fun obj2 =>
            parseBlockAux fuel lines di2.2 indent obj2
        else
          ebind (bAppend obj.orSeq (Node.scalar (_parse_scalar (itemAt lines i indent)))) fun obj2 =>
            parseBlockAux fuel lines (i + 1) indent obj2
      else
        if hasColon (lineTail lines i indent) then
          if restOf (lineTail lines i indent) = ['|'] then
            ebind (bSetKey obj.orMap (keyOf (lineTail lines i indent))
                (Node.scalar (_parse_block_scalar lines (i + 1) (indent + 2)).1)) fun obj2 =>
              parseBlockAux fuel lines (_parse_block_scalar lines (i + 1) (indent + 2)).2 indent obj2
          else if restOf (lineTail lines i indent) = [] then
            obind (parseBlockAux fuel lines (i + 1) (indent + 2) BObj.none) fun vi =>
              ebind (bSetKey obj.orMap (keyOf (lineTail lines i indent)) vi.1) fun obj2 =>
                parseBlockAux fuel lines vi.2 indent obj2
          else
            ebind (bSetKey obj.orMap (keyOf (lineTail lines i indent))
                (Node.scalar (_parse_scalar (restOf (lineTail lines i indent))))) fun obj2 =>
              parseBlockAux fuel lines (i + 1) indent obj2
        else parseBlockAux fuel lines (i + 1) indent obj.orMap
    else Option.some (Except.ok (obj.toNode, i))

/-- Fuel-indexed transcription of the `_parse_map` loop from the source.
`data` is the running dict. -/
def parseMapAux (fuel : Nat) (lines : List Ln) (i indent : Nat)
    (data : List (Ln × Node)) : Option (Except PyErr (List (Ln × Node) × Nat)) :=
  match fuel with
  | 0 => Option.none
  | fuel + 1 =>
    if i < lines.length then
      if pyStrip (lines.getD i []) = [] ∨ ['#'].isPrefixOf (pyLstrip (lines.getD i [])) = true then
        parseMapAux fuel lines (i + 1) indent data
      else if pyIndentOf (lines.getD i []) < indent then Option.some (Except.ok (data, i))
      else if pyIndentOf (lines.getD i []) > indent then Option.some (Except.ok (data, i))
      else if dashSp.isPrefixOf (lineTail lines i indent) then Option.some (Except.ok (data, i))
      else if hasColon (lineTail lines i indent) then
        if restOf (lineTail lines i indent) = ['|'] then
          parseMapAux fuel lines (_parse_block_scalar lines (i + 1) (indent + 2)).2 indent
            (dictSet data (keyOf (lineTail lines i indent))
              (Node.scalar (_parse_block_scalar lines (i + 1) (indent + 2)).1))
        else if restOf (lineTail lines i indent) = [] then
          obind (parseBlockAux fuel lines (i + 1) (indent + 2) BObj.none) fun vi =>
            parseMapAux fuel lines vi.2 indent
              (dictSet data (keyOf (lineTail lines i indent)) vi.1)
        else
          parseMapAux fuel lines (i + 1) indent
            (dictSet data (keyOf (lineTail lines i indent))
              (Node.scalar (_parse_scalar (restOf (lineTail lines i indent)))))
      else parseMapAux fuel lines (i + 1) indent data
    else Option.some (Except.ok (data, i))

end

/-- `_parse_block` from the source, at the fuel `lines.length + 1` (proved
sufficient below). -/
def _parse_block (lines : List Ln) (start indent : Nat) :
    Option (Except PyErr (Node × Nat)) :=
  parseBlockAux (lines.length + 1) lines start indent BObj.none

/-- `_parse_map` from the source, at the fuel `lines.length + 1`. -/
def _parse_map (lines : List Ln) (start indent : Nat) :
    Option (Except PyErr (List (Ln × Node) × Nat)) :=
  parseMapAux (lines.length + 1) lines start indent []

/-- Python `text.splitlines()` for newline-separated text (the parser's
input is read with universal-newline translation, so `\n` is the only line
terminator that reaches it). -/
def pySplitlines (s : Ln) : List Ln :=
  if s = [] then []
  else
    let p := s.splitOn '\n'
    if p.getLast? = some [] then p.dropLast else p

/-- `parse_yaml` from the source (minus the file I/O): split the document
into lines, parse a block at indent 0 from line 0, and require the result to
be a dict, raising `ValueError` (the `StructureError` of the spec) otherwise. -/
def parse_yaml (text : Ln) : Option (Except PyErr (List (Ln × Node))) :=
  let lines := pySplitlines text
  obind (parseBlockAux (lines.length + 1) lines 0 0 BObj.none) fun di =>
    match di.1 with
    | Node.mapping m => Option.some (.ok m)
    | _ => Option.some (.error .valueError)

/-! ### Statement forms used by the fuel inductions, and the key-uniqueness
invariant -/

/-- Index bounds for a completed block parse: the returned cursor never moves
backward and never runs past the input. -/
def PBle (fuel : Nat) : Prop :=
  ∀ lines i indent obj v j, parseBlockAux fuel lines i indent obj = Option.some (Except.ok (v, j)) →
    i ≤ j ∧ j ≤ max i lines.length

/-- Index bounds for a completed mapping parse. -/
def PMle (fuel : Nat) : Prop :=
  ∀ lines i indent data e j, parseMapAux fuel lines i indent data = Option.some (Except.ok (e, j)) →
    i ≤ j ∧ j ≤ max i lines.length

/-- The block parse completes (no fuel exhaustion) whenever the fuel exceeds
the number of lines left. -/
def PBsome (fuel : Nat) : Prop :=
  ∀ lines i indent obj, lines.length - i + 1 ≤ fuel → (parseBlockAux fuel lines i indent obj).isSome

/-- The mapping parse completes whenever the fuel exceeds the number of lines
left. -/
def PMsome (fuel : Nat) : Prop :=
  ∀ lines i indent data, lines.length - i + 1 ≤ fuel → (parseMapAux fuel lines i indent data).isSome

/-- Every mapping in the tree has pairwise-distinct keys (the dict invariant
Python guarantees for free). -/
inductive NodeWF : Node → Prop where
  | scalar (s : Ln) : NodeWF (Node.scalar s)
  | empty : NodeWF Node.empty
  | mapping (pairs : List (Ln × Node)) :
      (pairs.map Prod.fst).Nodup → (∀ p ∈ pairs, NodeWF p.2) → NodeWF (Node.mapping pairs)
  | sequence (items : List Node) :
      (∀ x ∈ items, NodeWF x) → NodeWF (Node.sequence items)

/-- Key-uniqueness for a raw dict. -/
def DictWF (d : List (Ln × Node)) : Prop :=
  (d.map Prod.fst).Nodup ∧ ∀ p ∈ d, NodeWF p.2

/-- Key-uniqueness for the running accumulator of `_parse_block`. -/
def BObjWF : BObj → Prop
  | .none => True
  | .map d => DictWF d
  | .seq l => ∀ x ∈ l, NodeWF x

/-- Well-formedness invariant for completed block parses. -/
def PBwf (fuel : Nat) : Prop :=
  ∀ lines i indent obj v j, BObjWF obj →
    parseBlockAux fuel lines i indent obj = Option.some (Except.ok (v, j)) → NodeWF v

/-- Well-formedness invariant for completed mapping parses. -/
def PMwf (fuel : Nat) : Prop :=
  ∀ lines i indent data e j, DictWF data →
    parseMapAux fuel lines i indent data = Option.some (Except.ok (e, j)) → DictWF e

/-! ### Reduction lemmas for the embedding's plumbing -/

@[simp] theorem obind_nil {α β : Type} (f : α → Option (Except PyErr β)) :
    obind Option.none f = Option.none := rfl

@[simp] theorem obind_err {α β : Type} (e : PyErr) (f : α → Option (Except PyErr β)) :
    obind (Option.some (Except.error e)) f = Option.some (Except.error e) := rfl

@[simp] theorem obind_ok {α β : Type} (a : α) (f : α → Option (Except PyErr β)) :
    obind (Option.some (Except.ok a)) f = f a := rfl

@[simp] theorem ebind_err {α β : Type} (e : PyErr) (f : α → Option (Except PyErr β)) :
    ebind (Except.error e) f = Option.some (Except.error e) := rfl

@[simp] theorem ebind_ok {α β : Type} (a : α) (f : α → Option (Except PyErr β)) :
    ebind (Except.ok a) f = f a := rfl

@[simp] theorem bAppend_seq (items : List Node) (v : Node) :
    bAppend (BObj.seq items) v = Except.ok (BObj.seq (items ++ [v])) := rfl

@[simp] theorem bAppend_map (pairs : List (Ln × Node)) (v : Node) :
    bAppend (BObj.map pairs) v = Except.error PyErr.attributeError := rfl

@[simp] theorem bSetKey_map (pairs : List (Ln × Node)) (k : Ln) (v : Node) :
    bSetKey (BObj.map pairs) k v = Except.ok (BObj.map (dictSet pairs k v)) := rfl

@[simp] theorem bSetKey_seq (items : List Node) (k : Ln) (v : Node) :
    bSetKey (BObj.seq items) k v = Except.error PyErr.typeError := rfl

@[simp] theorem orSeq_none : BObj.none.orSeq = BObj.seq [] := rfl
@[simp] theorem orSeq_map (pairs : List (Ln × Node)) : (BObj.map pairs).orSeq = BObj.map pairs := rfl
@[simp] theorem orSeq_seq (items : List Node) : (BObj.seq items).orSeq = BObj.seq items := rfl
@[simp] theorem orMap_none : BObj.none.orMap = BObj.map [] := rfl
@[simp] theorem orMap_map (pairs : List (Ln × Node)) : (BObj.map pairs).orMap = BObj.map pairs := rfl
@[simp] theorem orMap_seq (items : List Node) : (BObj.seq items).orMap = BObj.seq items := rfl

/-! ### One-step unfolding of the two loops -/

theorem parseBlockAux_zero (lines : List Ln) (i indent : Nat) (obj : BObj) :
    parseBlockAux 0 lines i indent obj = Option.none := rfl

theorem parseMapAux_zero (lines : List Ln) (i indent : Nat) (data : List (Ln × Node)) :
    parseMapAux 0 lines i indent data = Option.none := rfl

theorem parseBlockAux_succ (fuel : Nat) (lines : List Ln) (i indent : Nat) (obj : BObj) :
    parseBlockAux (fuel + 1) lines i indent obj =
(
    if i < lines.length then
      if pyStrip (lines.getD i []) = [] ∨ ['#'].isPrefixOf (pyLstrip (lines.getD i [])) = true then
        parseBlockAux fuel lines (i + 1) indent obj
      else if pyIndentOf (lines.getD i []) < indent then Option.some (Except.ok (obj.toNode, i))
      else if pyIndentOf (lines.getD i []) > indent then Option.some (Except.ok (obj.toNode, i))
      else if dashSp.isPrefixOf (lineTail lines i indent) then
        if itemAt lines i indent = [] then
          obind (parseBlockAux fuel lines (i + 1) (indent + 2) BObj.none) fun vi =>
            ebind (bAppend obj.orSeq vi.1) fun obj2 =>
              parseBlockAux fuel lines vi.2 indent obj2
        else if hasColon (itemAt lines i indent) then
          obind
            (if restOf (itemAt lines i indent) = ['|'] then
              Option.some (Except.ok
                (dictSet [] (keyOf (itemAt lines i indent))
                  (Node.scalar (_parse_block_scalar lines (i + 1) (indent + 2)).1),
                 (_parse_block_scalar lines (i + 1) (indent + 2)).2))
            else if restOf (itemAt lines i indent) = [] then
              obind (parseBlockAux fuel lines (i + 1) (indent + 2) BObj.none) fun vi =>
                Option.some (Except.ok (dictSet [] (keyOf (itemAt lines i indent)) vi.1, vi.2))
            else
              Option.some (Except.ok
                (dictSet [] (keyOf (itemAt lines i indent))
                  (Node.scalar (_parse_scalar (restOf (itemAt lines i indent)))), i + 1)))
            fun di =>
          obind
            (if di.2 < lines.length ∧ pyIndentOf (lines.getD di.2 []) = indent + 2
                ∧ dashSp.isPrefixOf (pyLstrip (lines.getD di.2 [])) = false then
              obind (parseMapAux fuel lines di.2 (indent + 2) []) fun ei =>
                Option.some (Except.ok (dictUpdate di.1 ei.1, ei.2))
            else Option.some (Except.ok di))
            fun di2 =>
          ebind (bAppend obj.orSeq (Node.mapping di2.1)) fun obj2 =>
            parseBlockAux fuel lines di2.2 indent obj2
        else
          ebind (bAppend obj.orSeq (Node.scalar (_parse_scalar (itemAt lines i indent)))) fun obj2 =>
            parseBlockAux fuel lines (i + 1) indent obj2
      else
        if hasColon (lineTail lines i indent) then
          if restOf (lineTail lines i indent) = ['|'] then
            ebind (bSetKey obj.orMap (keyOf (lineTail lines i indent))
                (Node.scalar (_parse_block_scalar lines (i + 1) (indent + 2)).1)) fun obj2 =>
              parseBlockAux fuel lines (_parse_block_scalar lines (i + 1) (indent + 2)).2 indent obj2
          else if restOf (lineTail lines i indent) = [] then
            obind (parseBlockAux fuel lines (i + 1) (indent + 2) BObj.none) fun vi =>
              ebind (bSetKey obj.orMap (keyOf (lineTail lines i indent)) vi.1) fun obj2 =>
                parseBlockAux fuel lines vi.2 indent obj2
          else
            ebind (bSetKey obj.orMap (keyOf (lineTail lines i indent))
                (Node.scalar (_parse_scalar (restOf (lineTail lines i indent))))) fun obj2 =>
              parseBlockAux fuel lines (i + 1) indent obj2
        else parseBlockAux fuel lines (i + 1) indent obj.orMap
    else Option.some (Except.ok (obj.toNode, i))
) := rfl

theorem parseMapAux_succ (fuel : Nat) (lines : List Ln) (i indent : Nat) (data : List (Ln × Node)) :
    parseMapAux (fuel + 1) lines i indent data =
(
    if i < lines.length then
      if pyStrip (lines.getD i []) = [] ∨ ['#'].isPrefixOf (pyLstrip (lines.getD i [])) = true then
        parseMapAux fuel lines (i + 1) indent data
      else if pyIndentOf (lines.getD i []) < indent then Option.some (Except.ok (data, i))
      else if pyIndentOf (lines.getD i []) > indent then Option.some (Except.ok (data, i))
      else if dashSp.isPrefixOf (lineTail lines i indent) then Option.some (Except.ok (data, i))
      else if hasColon (lineTail lines i indent) then
        if restOf (lineTail lines i indent) = ['|'] then
          parseMapAux fuel lines (_parse_block_scalar lines (i + 1) (indent + 2)).2 indent
            (dictSet data (keyOf (lineTail lines i indent))
              (Node.scalar (_parse_block_scalar lines (i + 1) (indent + 2)).1))
        else if restOf (lineTail lines i indent) = [] then
          obind (parseBlockAux fuel lines (i + 1) (indent + 2) BObj.none) fun vi =>
            parseMapAux fuel lines vi.2 indent
              (dictSet data (keyOf (lineTail lines i indent)) vi.1)
        else
          parseMapAux fuel lines (i + 1) indent
            (dictSet data (keyOf (lineTail lines i indent))
              (Node.scalar (_parse_scalar (restOf (lineTail lines i indent)))))
      else parseMapAux fuel lines (i + 1) indent data
    else Option.some (Except.ok (data, i))
) := rfl

/-! ### Branch lemmas: one lemma per loop-body case, with the guards as
hypotheses -/

theorem pb_eof (fuel : Nat) (lines : List Ln) (i indent : Nat) (obj : BObj)
    (hlen : ¬ i < lines.length) :
    parseBlockAux (fuel + 1) lines i indent obj = Option.some (Except.ok (obj.toNode, i)) := by
  rw [parseBlockAux_succ, if_neg hlen]

theorem pb_skip (fuel : Nat) (lines : List Ln) (i indent : Nat) (obj : BObj)
    (hlen : i < lines.length)
    (hskip : pyStrip (lines.getD i []) = [] ∨ ['#'].isPrefixOf (pyLstrip (lines.getD i [])) = true) :
    parseBlockAux (fuel + 1) lines i indent obj = parseBlockAux fuel lines (i + 1) indent obj := by
  rw [parseBlockAux_succ, if_pos hlen, if_pos hskip]

theorem pb_low (fuel : Nat) (lines : List Ln) (i indent : Nat) (obj : BObj)
    (hlen : i < lines.length)
    (hns : ¬ (pyStrip (lines.getD i []) = [] ∨ ['#'].isPrefixOf (pyLstrip (lines.getD i [])) = true))
    (hlt : pyIndentOf (lines.getD i []) < indent) :
    parseBlockAux (fuel + 1) lines i indent obj = Option.some (Except.ok (obj.toNode, i)) := by
  rw [parseBlockAux_succ, if_pos hlen, if_neg hns, if_pos hlt]

theorem pb_high (fuel : Nat) (lines : List Ln) (i indent : Nat) (obj : BObj)
    (hlen : i < lines.length)
    (hns : ¬ (pyStrip (lines.getD i []) = [] ∨ ['#'].isPrefixOf (pyLstrip (lines.getD i [])) = true))
    (hnlt : ¬ pyIndentOf (lines.getD i []) < indent)
    (hgt : pyIndentOf (lines.getD i []) > indent) :
    parseBlockAux (fuel + 1) lines i indent obj = Option.some (Except.ok (obj.toNode, i)) := by
  rw [parseBlockAux_succ, if_pos hlen, if_neg hns, if_neg hnlt, if_pos hgt]

theorem pb_dash_nil (fuel : Nat) (lines : List Ln) (i indent : Nat) (obj : BObj)
    (hlen : i < lines.length)
    (hns : ¬ (pyStrip (lines.getD i []) = [] ∨ ['#'].isPrefixOf (pyLstrip (lines.getD i [])) = true))
    (hnlt : ¬ pyIndentOf (lines.getD i []) < indent)
    (hngt : ¬ pyIndentOf (lines.getD i []) > indent)
    (hdash : dashSp.isPrefixOf (lineTail lines i indent) = true)
    (hnil : itemAt lines i indent = []) :
    parseBlockAux (fuel + 1) lines i indent obj =
      obind (parseBlockAux fuel lines (i + 1) (indent + 2) BObj.none) fun vi =>
        ebind (bAppend obj.orSeq vi.1) fun obj2 =>
          parseBlockAux fuel lines vi.2 indent obj2 := by
  rw [parseBlockAux_succ, if_pos hlen, if_neg hns, if_neg hnlt, if_neg hngt, if_pos hdash,
    if_pos hnil]

theorem pb_dash_colon (fuel : Nat) (lines : List Ln) (i indent : Nat) (obj : BObj)
    (hlen : i < lines.length)
    (hns : ¬ (pyStrip (lines.getD i []) = [] ∨ ['#'].isPrefixOf (pyLstrip (lines.getD i [])) = true))
    (hnlt : ¬ pyIndentOf (lines.getD i []) < indent)
    (hngt : ¬ pyIndentOf (lines.getD i []) > indent)
    (hdash : dashSp.isPrefixOf (lineTail lines i indent) = true)
    (hnil : ¬ itemAt lines i indent = [])
    (hcol : hasColon (itemAt lines i indent) = true) :
    parseBlockAux (fuel + 1) lines i indent obj =
      (obind
        (if restOf (itemAt lines i indent) = ['|'] then
          Option.some (Except.ok
            (dictSet [] (keyOf (itemAt lines i indent))
              (Node.scalar (_parse_block_scalar lines (i + 1) (indent + 2)).1),
             (_parse_block_scalar lines (i + 1) (indent + 2)).2))
        else if restOf (itemAt lines i indent) = [] then
          obind (parseBlockAux fuel lines (i + 1) (indent + 2) BObj.none) fun vi =>
            Option.some (Except.ok (dictSet [] (keyOf (itemAt lines i indent)) vi.1, vi.2))
        else
          Option.some (Except.ok
            (dictSet [] (keyOf (itemAt lines i indent))
              (Node.scalar (_parse_scalar (restOf (itemAt lines i indent)))), i + 1)))
        fun di =>
      obind
        (if di.2 < lines.length ∧ pyIndentOf (lines.getD di.2 []) = indent + 2
            ∧ dashSp.isPrefixOf (pyLstrip (lines.getD di.2 [])) = false then
          obind (parseMapAux fuel lines di.2 (indent + 2) []) fun ei =>
            Option.some (Except.ok (dictUpdate di.1 ei.1, ei.2))
        else Option.some (Except.ok di))
        fun di2 =>
      ebind (bAppend obj.orSeq (Node.mapping di2.1)) fun obj2 =>
        parseBlockAux fuel lines di2.2 indent obj2) := by
  conv_lhs => rw [parseBlockAux_succ, if_pos hlen, if_neg hns, if_neg hnlt, if_neg hngt,
    if_pos hdash, if_neg hnil, if_pos hcol]

theorem pb_dash_scalar (fuel : Nat) (lines : List Ln) (i indent : Nat) (obj : BObj)
    (hlen : i < lines.length)
    (hns : ¬ (pyStrip (lines.getD i []) = [] ∨ ['#'].isPrefixOf (pyLstrip (lines.getD i [])) = true))
    (hnlt : ¬ pyIndentOf (lines.getD i []) < indent)
    (hngt : ¬ pyIndentOf (lines.getD i []) > indent)
    (hdash : dashSp.isPrefixOf (lineTail lines i indent) = true)
    (hnil : ¬ itemAt lines i indent = [])
    (hcol : hasColon (itemAt lines i indent) = false) :
    parseBlockAux (fuel + 1) lines i indent obj =
      ebind (bAppend obj.orSeq (Node.scalar (_parse_scalar (itemAt lines i indent)))) fun obj2 =>
        parseBlockAux fuel lines (i + 1) indent obj2 := by
  rw [parseBlockAux_succ, if_pos hlen, if_neg hns, if_neg hnlt, if_neg hngt, if_pos hdash,
    if_neg hnil, if_neg (by simp [hcol])]

theorem pb_key_pipe (fuel : Nat) (lines : List Ln) (i indent : Nat) (obj : BObj)
    (hlen : i < lines.length)
    (hns : ¬ (pyStrip (lines.getD i []) = [] ∨ ['#'].isPrefixOf (pyLstrip (lines.getD i [])) = true))
    (hnlt : ¬ pyIndentOf (lines.getD i []) < indent)
    (hngt : ¬ pyIndentOf (lines.getD i []) > indent)
    (hdash : dashSp.isPrefixOf (lineTail lines i indent) = false)
    (hcol : hasColon (lineTail lines i indent) = true)
    (hpipe : restOf (lineTail lines i indent) = ['|']) :
    parseBlockAux (fuel + 1) lines i indent obj =
      (ebind (bSetKey obj.orMap (keyOf (lineTail lines i indent))
          (Node.scalar (_parse_block_scalar lines (i + 1) (indent + 2)).1)) fun obj2 =>
        parseBlockAux fuel lines (_parse_block_scalar lines (i + 1) (indent + 2)).2 indent obj2) := by
  rw [parseBlockAux_succ, if_pos hlen, if_neg hns, if_neg hnlt, if_neg hngt,
    if_neg (by simp [hdash]), if_pos hcol, if_pos hpipe]

theorem pb_key_nested (fuel : Nat) (lines : List Ln) (i indent : Nat) (obj : BObj)
    (hlen : i < lines.length)
    (hns : ¬ (pyStrip (lines.getD i []) = [] ∨ ['#'].isPrefixOf (pyLstrip (lines.getD i [])) = true))
    (hnlt : ¬ pyIndentOf (lines.getD i []) < indent)
    (hngt : ¬ pyIndentOf (lines.getD i []) > indent)
    (hdash : dashSp.isPrefixOf (lineTail lines i indent) = false)
    (hcol : hasColon (lineTail lines i indent) = true)
    (hnpipe : ¬ restOf (lineTail lines i indent) = ['|'])
    (hemp : restOf (lineTail lines i indent) = []) :
    parseBlockAux (fuel + 1) lines i indent obj =
      (obind (parseBlockAux fuel lines (i + 1) (indent + 2) BObj.none) fun vi =>
        ebind (bSetKey obj.orMap (keyOf (lineTail lines i indent)) vi.1) fun obj2 =>
          parseBlockAux fuel lines vi.2 indent obj2) := by
  rw [parseBlockAux_succ, if_pos hlen, if_neg hns, if_neg hnlt, if_neg hngt,
    if_neg (by simp [hdash]), if_pos hcol, if_neg hnpipe, if_pos hemp]

theorem pb_key_scalar (fuel : Nat) (lines : List Ln) (i indent : Nat) (obj : BObj)
    (hlen : i < lines.length)
    (hns : ¬ (pyStrip (lines.getD i []) = [] ∨ ['#'].isPrefixOf (pyLstrip (lines.getD i [])) = true))
    (hnlt : ¬ pyIndentOf (lines.getD i []) < indent)
    (hngt : ¬ pyIndentOf (lines.getD i []) > indent)
    (hdash : dashSp.isPrefixOf (lineTail lines i indent) = false)
    (hcol : hasColon (lineTail lines i indent) = true)
    (hnpipe : ¬ restOf (lineTail lines i indent) = ['|'])
    (hnemp : ¬ restOf (lineTail lines i indent) = []) :
    parseBlockAux (fuel + 1) lines i indent obj =
      (ebind (bSetKey obj.orMap (keyOf (lineTail lines i indent))
          (Node.scalar (_parse_scalar (restOf (lineTail lines i indent))))) fun obj2 =>
        parseBlockAux fuel lines (i + 1) indent obj2) := by
  rw [parseBlockAux_succ, if_pos hlen, if_neg hns, if_neg hnlt, if_neg hngt,
    if_neg (by simp [hdash]), if_pos hcol, if_neg hnpipe, if_neg hnemp]

theorem pb_nocolon (fuel : Nat) (lines : List Ln) (i indent : Nat) (obj : BObj)
    (hlen : i < lines.length)
    (hns : ¬ (pyStrip (lines.getD i []) = [] ∨ ['#'].isPrefixOf (pyLstrip (lines.getD i [])) = true))
    (hnlt : ¬ pyIndentOf (lines.getD i []) < indent)
    (hngt : ¬ pyIndentOf (lines.getD i []) > indent)
    (hdash : dashSp.isPrefixOf (lineTail lines i indent) = false)
    (hcol : hasColon (lineTail lines i indent) = false) :
    parseBlockAux (fuel + 1) lines i indent obj =
      parseBlockAux fuel lines (i + 1) indent obj.orMap := by
  rw [parseBlockAux_succ, if_pos hlen, if_neg hns, if_neg hnlt, if_neg hngt,
    if_neg (by simp [hdash]), if_neg (by simp [hcol])]

theorem pm_eof (fuel : Nat) (lines : List Ln) (i indent : Nat) (data : List (Ln × Node))
    (hlen : ¬ i < lines.length) :
    parseMapAux (fuel + 1) lines i indent data = Option.some (Except.ok (data, i)) := by
  rw [parseMapAux_succ, if_neg hlen]

theorem pm_skip (fuel : Nat) (lines : List Ln) (i indent : Nat) (data : List (Ln × Node))
    (hlen : i < lines.length)
    (hskip : pyStrip (lines.getD i []) = [] ∨ ['#'].isPrefixOf (pyLstrip (lines.getD i [])) = true) :
    parseMapAux (fuel + 1) lines i indent data = parseMapAux fuel lines (i + 1) indent data := by
  rw [parseMapAux_succ, if_pos hlen, if_pos hskip]

theorem pm_low (fuel : Nat) (lines : List Ln) (i indent : Nat) (data : List (Ln × Node))
    (hlen : i < lines.length)
    (hns : ¬ (pyStrip (lines.getD i []) = [] ∨ ['#'].isPrefixOf (pyLstrip (lines.getD i [])) = true))
    (hlt : pyIndentOf (lines.getD i []) < indent) :
    parseMapAux (fuel + 1) lines i indent data = Option.some (Except.ok (data, i)) := by
  rw [parseMapAux_succ, if_pos hlen, if_neg hns, if_pos hlt]

theorem pm_high (fuel : Nat) (lines : List Ln) (i indent : Nat) (data : List (Ln × Node))
    (hlen : i < lines.length)
    (hns : ¬ (pyStrip (lines.getD i []) = [] ∨ ['#'].isPrefixOf (pyLstrip (lines.getD i [])) = true))
    (hnlt : ¬ pyIndentOf (lines.getD i []) < indent)
    (hgt : pyIndentOf (lines.getD i []) > indent) :
    parseMapAux (fuel + 1) lines i indent data = Option.some (Except.ok (data, i)) := by
  rw [parseMapAux_succ, if_pos hlen, if_neg hns, if_neg hnlt, if_pos hgt]

theorem pm_dash (fuel : Nat) (lines : List Ln) (i indent : Nat) (data : List (Ln × Node))
    (hlen : i < lines.length)
    (hns : ¬ (pyStrip (lines.getD i []) = [] ∨ ['#'].isPrefixOf (pyLstrip (lines.getD i [])) = true))
    (hnlt : ¬ pyIndentOf (lines.getD i []) < indent)
    (hngt : ¬ pyIndentOf (lines.getD i []) > indent)
    (hdash : dashSp.isPrefixOf (lineTail lines i indent) = true) :
    parseMapAux (fuel + 1) lines i indent data = Option.some (Except.ok (data, i)) := by
  rw [parseMapAux_succ, if_pos hlen, if_neg hns, if_neg hnlt, if_neg hngt, if_pos hdash]

theorem pm_key_pipe (fuel : Nat) (lines : List Ln) (i indent : Nat) (data : List (Ln × Node))
    (hlen : i < lines.length)
    (hns : ¬ (pyStrip (lines.getD i []) = [] ∨ ['#'].isPrefixOf (pyLstrip (lines.getD i [])) = true))
    (hnlt : ¬ pyIndentOf (lines.getD i []) < indent)
    (hngt : ¬ pyIndentOf (lines.getD i []) > indent)
    (hdash : dashSp.isPrefixOf (lineTail lines i indent) = false)
    (hcol : hasColon (lineTail lines i indent) = true)
    (hpipe : restOf (lineTail lines i indent) = ['|']) :
    parseMapAux (fuel + 1) lines i indent data =
      parseMapAux fuel lines (_parse_block_scalar lines (i + 1) (indent + 2)).2 indent
        (dictSet data (keyOf (lineTail lines i indent))
          (Node.scalar (_parse_block_scalar lines (i + 1) (indent + 2)).1)) := by
  rw [parseMapAux_succ, if_pos hlen, if_neg hns, if_neg hnlt, if_neg hngt,
    if_neg (by simp [hdash]), if_pos hcol, if_pos hpipe]

theorem pm_key_nested (fuel : Nat) (lines : List Ln) (i indent : Nat) (data : List (Ln × Node))
    (hlen : i < lines.length)
    (hns : ¬ (pyStrip (lines.getD i []) = [] ∨ ['#'].isPrefixOf (pyLstrip (lines.getD i [])) = true))
    (hnlt : ¬ pyIndentOf (lines.getD i []) < indent)
    (hngt : ¬ pyIndentOf (lines.getD i []) > indent)
    (hdash : dashSp.isPrefixOf (lineTail lines i indent) = false)
    (hcol : hasColon (lineTail lines i indent) = true)
    (hnpipe : ¬ restOf (lineTail lines i indent) = ['|'])
    (hemp : restOf (lineTail lines i indent) = []) :
    parseMapAux (fuel + 1) lines i indent data =
      (obind (parseBlockAux fuel lines (i + 1) (indent + 2) BObj.none) fun vi =>
        parseMapAux fuel lines vi.2 indent
          (dictSet data (keyOf (lineTail lines i indent)) vi.1)) := by
  rw [parseMapAux_succ, if_pos hlen, if_neg hns, if_neg hnlt, if_neg hngt,
    if_neg (by simp [hdash]), if_pos hcol, if_neg hnpipe, if_pos hemp]

theorem pm_key_scalar (fuel : Nat) (lines : List Ln) (i indent : Nat) (data : List (Ln × Node))
    (hlen : i < lines.length)
    (hns : ¬ (pyStrip (lines.getD i []) = [] ∨ ['#'].isPrefixOf (pyLstrip (lines.getD i [])) = true))
    (hnlt : ¬ pyIndentOf (lines.getD i []) < indent)
    (hngt : ¬ pyIndentOf (lines.getD i []) > indent)
    (hdash : dashSp.isPrefixOf (lineTail lines i indent) = false)
    (hcol : hasColon (lineTail lines i indent) = true)
    (hnpipe : ¬ restOf (lineTail lines i indent) = ['|'])
    (hnemp : ¬ restOf (lineTail lines i indent) = []) :
    parseMapAux (fuel + 1) lines i indent data =
      parseMapAux fuel lines (i + 1) indent
        (dictSet data (keyOf (lineTail lines i indent))
          (Node.scalar (_parse_scalar (restOf (lineTail lines i indent))))) := by
  rw [parseMapAux_succ, if_pos hlen, if_neg hns, if_neg hnlt, if_neg hngt,
    if_neg (by simp [hdash]), if_pos hcol, if_neg hnpipe, if_neg hnemp]

theorem pm_nocolon (fuel : Nat) (lines : List Ln) (i indent : Nat) (data : List (Ln × Node))
    (hlen : i < lines.length)
    (hns : ¬ (pyStrip (lines.getD i []) = [] ∨ ['#'].isPrefixOf (pyLstrip (lines.getD i [])) = true))
    (hnlt : ¬ pyIndentOf (lines.getD i []) < indent)
    (hngt : ¬ pyIndentOf (lines.getD i []) > indent)
    (hdash : dashSp.isPrefixOf (lineTail lines i indent) = false)
    (hcol : hasColon (lineTail lines i indent) = false) :
    parseMapAux (fuel + 1) lines i indent data = parseMapAux fuel lines (i + 1) indent data := by
  rw [parseMapAux_succ, if_pos hlen, if_neg hns, if_neg hnlt, if_neg hngt,
    if_neg (by simp [hdash]), if_neg (by simp [hcol])]

/-! ### Cursor bounds -/

theorem blockScalarRun_count_le (rest : List Ln) (indent : Nat) :
    (blockScalarRun rest indent).2 ≤ rest.length := by
  induction rest with
  | nil => simp [blockScalarRun]
  | cons raw rs ih =>
    simp only [blockScalarRun]
    split
    · simp
    · simp only [List.length_cons]
      omega

theorem pbs_idx_bounds (lines : List Ln) (start indent : Nat) :
    start ≤ (_parse_block_scalar lines start indent).2 ∧
    (_parse_block_scalar lines start indent).2 ≤ max start lines.length := by
  have h := blockScalarRun_count_le (lines.drop start) indent
  simp only [List.length_drop] at h
  simp only [_parse_block_scalar]
  omega

theorem ccStep_le (fuel : Nat) (lines : List Ln) (indent : Nat)
    (ihb : PBle fuel) (ihm : PMle fuel)
    (di : List (Ln × Node) × Nat) (obj : BObj) (v : Node) (j : Nat)
    (h : (obind
        (if di.2 < lines.length ∧ pyIndentOf (lines.getD di.2 []) = indent + 2
            ∧ dashSp.isPrefixOf (pyLstrip (lines.getD di.2 [])) = false then
          obind (parseMapAux fuel lines di.2 (indent + 2) []) fun ei =>
            Option.some (Except.ok (dictUpdate di.1 ei.1, ei.2))
        else Option.some (Except.ok di))
        fun di2 =>
      ebind (bAppend obj.orSeq (Node.mapping di2.1)) fun obj2 =>
        parseBlockAux fuel lines di2.2 indent obj2) = Option.some (Except.ok (v, j))) :
    di.2 ≤ j ∧ j ≤ max di.2 lines.length := by
  by_cases hcont : di.2 < lines.length ∧ pyIndentOf (lines.getD di.2 []) = indent + 2
      ∧ dashSp.isPrefixOf (pyLstrip (lines.getD di.2 [])) = false
  · rw [if_pos hcont] at h
    rcases hM : parseMapAux fuel lines di.2 (indent + 2) [] with _ | (e | ⟨en, ej⟩)
    · rw [hM] at h
      simp only [obind_nil] at h
      simp at h
    · rw [hM] at h
      simp only [obind_err] at h
      simp at h
    · rw [hM] at h
      simp only [obind_ok] at h
      have hm := ihm lines di.2 (indent + 2) [] en ej hM
      cases obj with
      | none =>
        simp only [orSeq_none, bAppend_seq, ebind_ok] at h
        have hb := ihb _ _ _ _ _ _ h
        omega
      | map pairs =>
        simp only [orSeq_map, bAppend_map, ebind_err] at h
        simp at h
      | seq items =>
        simp only [orSeq_seq, bAppend_seq, ebind_ok] at h
        have hb := ihb _ _ _ _ _ _ h
        omega
  · rw [if_neg hcont] at h
    simp only [obind_ok] at h
    cases obj with
    | none =>
      simp only [orSeq_none, bAppend_seq, ebind_ok] at h
      have hb := ihb _ _ _ _ _ _ h
      omega
    | map pairs =>
      simp only [orSeq_map, bAppend_map, ebind_err] at h
      simp at h
    | seq items =>
      simp only [orSeq_seq, bAppend_seq, ebind_ok] at h
      have hb := ihb _ _ _ _ _ _ h
      omega

theorem parseAux_le (fuel : Nat) : PBle fuel ∧ PMle fuel := by
  induction fuel with
  | zero =>
    refine ⟨fun lines i indent obj v j h => ?_, fun lines i indent data e j h => ?_⟩
    · rw [parseBlockAux_zero] at h
      cases h
    · rw [parseMapAux_zero] at h
      cases h
  | succ f ih =>
    obtain ⟨ihb, ihm⟩ := ih
    refine ⟨fun lines i indent obj v j h => ?_, fun lines i indent data e j h => ?_⟩
    · -- the block loop
      by_cases hlen : i < lines.length
      · by_cases hskip : pyStrip (lines.getD i []) = [] ∨ ['#'].isPrefixOf (pyLstrip (lines.getD i [])) = true
        · rw [pb_skip f lines i indent obj hlen hskip] at h
          have hb := ihb _ _ _ _ _ _ h
          omega
        · by_cases hlt : pyIndentOf (lines.getD i []) < indent
          · rw [pb_low f lines i indent obj hlen hskip hlt] at h
            obtain ⟨-, rfl⟩ := by simpa using h
            omega
          · by_cases hgt : pyIndentOf (lines.getD i []) > indent
            · rw [pb_high f lines i indent obj hlen hskip hlt hgt] at h
              obtain ⟨-, rfl⟩ := by simpa using h
              omega
            · cases hdash : dashSp.isPrefixOf (lineTail lines i indent) with
              | true =>
                by_cases hnil : itemAt lines i indent = []
                · rw [pb_dash_nil f lines i indent obj hlen hskip hlt hgt hdash hnil] at h
                  rcases hX : parseBlockAux f lines (i + 1) (indent + 2) BObj.none with _ | (e | ⟨vn, vj⟩)
                  · rw [hX] at h
                    simp at h
                  · rw [hX] at h
                    simp only [obind_err] at h
                    simp at h
                  · rw [hX] at h
                    simp only [obind_ok] at h
                    have hs := ihb _ _ _ _ _ _ hX
                    cases obj with
                    | none =>
                      simp only [orSeq_none, bAppend_seq, ebind_ok] at h
                      have hb := ihb _ _ _ _ _ _ h
                      omega
                    | map pairs =>
                      simp only [orSeq_map, bAppend_map, ebind_err] at h
                      simp at h
                    | seq items =>
                      simp only [orSeq_seq, bAppend_seq, ebind_ok] at h
                      have hb := ihb _ _ _ _ _ _ h
                      omega
                · cases hcol : hasColon (itemAt lines i indent) with
                  | false =>
                    rw [pb_dash_scalar f lines i indent obj hlen hskip hlt hgt hdash hnil hcol] at h
                    cases obj with
                    | none =>
                      simp only [orSeq_none, bAppend_seq, ebind_ok] at h
                      have hb := ihb _ _ _ _ _ _ h
                      omega
                    | map pairs =>
                      simp only [orSeq_map, bAppend_map, ebind_err] at h
                      simp at h
                    | seq items =>
                      simp only [orSeq_seq, bAppend_seq, ebind_ok] at h
                      have hb := ihb _ _ _ _ _ _ h
                      omega
                  | true =>
                    rw [pb_dash_colon f lines i indent obj hlen hskip hlt hgt hdash hnil hcol] at h
                    by_cases hpipe : restOf (itemAt lines i indent) = ['|']
                    · rw [if_pos hpipe] at h
                      simp only [obind_ok] at h
                      have hcc := ccStep_le f lines indent ihb ihm
                        (dictSet [] (keyOf (itemAt lines i indent))
                          (Node.scalar (_parse_block_scalar lines (i + 1) (indent + 2)).1),
                         (_parse_block_scalar lines (i + 1) (indent + 2)).2) obj v j h
                      have hbs := pbs_idx_bounds lines (i + 1) (indent + 2)
                      simp only at hcc hbs
                      omega
                    · by_cases hemp : restOf (itemAt lines i indent) = []
                      · rw [if_neg hpipe, if_pos hemp] at h
                        rcases hX : parseBlockAux f lines (i + 1) (indent + 2) BObj.none with _ | (e | ⟨vn, vj⟩)
                        · rw [hX] at h
                          simp at h
                        · rw [hX] at h
                          simp only [obind_err] at h
                          simp at h
                        · rw [hX] at h
                          simp only [obind_ok] at h
                          have hs := ihb _ _ _ _ _ _ hX
                          have hcc := ccStep_le f lines indent ihb ihm
                            (dictSet [] (keyOf (itemAt lines i indent)) vn, vj) obj v j h
                          simp only at hcc
                          omega
                      · rw [if_neg hpipe, if_neg hemp] at h
                        simp only [obind_ok] at h
                        have hcc := ccStep_le f lines indent ihb ihm
                          (dictSet [] (keyOf (itemAt lines i indent))
                            (Node.scalar (_parse_scalar (restOf (itemAt lines i indent)))), i + 1) obj v j h
                        simp only at hcc
                        omega
              | false =>
                cases hcol : hasColon (lineTail lines i indent) with
                | false =>
                  rw [pb_nocolon f lines i indent obj hlen hskip hlt hgt hdash hcol] at h
                  have hb := ihb _ _ _ _ _ _ h
                  omega
                | true =>
                  by_cases hpipe : restOf (lineTail lines i indent) = ['|']
                  · rw [pb_key_pipe f lines i indent obj hlen hskip hlt hgt hdash hcol hpipe] at h
                    have hbs := pbs_idx_bounds lines (i + 1) (indent + 2)
                    cases obj with
                    | none =>
                      simp only [orMap_none, bSetKey_map, ebind_ok] at h
                      have hb := ihb _ _ _ _ _ _ h
                      omega
                    | map pairs =>
                      simp only [orMap_map, bSetKey_map, ebind_ok] at h
                      have hb := ihb _ _ _ _ _ _ h
                      omega
                    | seq items =>
                      simp only [orMap_seq, bSetKey_seq, ebind_err] at h
                      simp at h
                  · by_cases hemp : restOf (lineTail lines i indent) = []
                    · rw [pb_key_nested f lines i indent obj hlen hskip hlt hgt hdash hcol hpipe hemp] at h
                      rcases hX : parseBlockAux f lines (i + 1) (indent + 2) BObj.none with _ | (e | ⟨vn, vj⟩)
                      · rw [hX] at h
                        simp at h
                      · rw [hX] at h
                        simp only [obind_err] at h
                        simp at h
                      · rw [hX] at h
                        simp only [obind_ok] at h
                        have hs := ihb _ _ _ _ _ _ hX
                        cases obj with
                        | none =>
                          simp only [orMap_none, bSetKey_map, ebind_ok] at h
                          have hb := ihb _ _ _ _ _ _ h
                          omega
                        | map pairs =>
                          simp only [orMap_map, bSetKey_map, ebind_ok] at h
                          have hb := ihb _ _ _ _ _ _ h
                          omega
                        | seq items =>
                          simp only [orMap_seq, bSetKey_seq, ebind_err] at h
                          simp at h
                    · rw [pb_key_scalar f lines i indent obj hlen hskip hlt hgt hdash hcol hpipe hemp] at h
                      cases obj with
                      | none =>
                        simp only [orMap_none, bSetKey_map, ebind_ok] at h
                        have hb := ihb _ _ _ _ _ _ h
                        omega
                      | map pairs =>
                        simp only [orMap_map, bSetKey_map, ebind_ok] at h
                        have hb := ihb _ _ _ _ _ _ h
                        omega
                      | seq items =>
                        simp only [orMap_seq, bSetKey_seq, ebind_err] at h
                        simp at h
      · rw [pb_eof f lines i indent obj hlen] at h
        obtain ⟨-, rfl⟩ := by simpa using h
        omega
    · -- the mapping loop
      by_cases hlen : i < lines.length
      · by_cases hskip : pyStrip (lines.getD i []) = [] ∨ ['#'].isPrefixOf (pyLstrip (lines.getD i [])) = true
        · rw [pm_skip f lines i indent data hlen hskip] at h
          have hb := ihm _ _ _ _ _ _ h
          omega
        · by_cases hlt : pyIndentOf (lines.getD i []) < indent
          · rw [pm_low f lines i indent data hlen hskip hlt] at h
            obtain ⟨-, rfl⟩ := by simpa using h
            omega
          · by_cases hgt : pyIndentOf (lines.getD i []) > indent
            · rw [pm_high f lines i indent data hlen hskip hlt hgt] at h
              obtain ⟨-, rfl⟩ := by simpa using h
              omega
            · cases hdash : dashSp.isPrefixOf (lineTail lines i indent) with
              | true =>
                rw [pm_dash f lines i indent data hlen hskip hlt hgt hdash] at h
                obtain ⟨-, rfl⟩ := by simpa using h
                omega
              | false =>
                cases hcol : hasColon (lineTail lines i indent) with
                | false =>
                  rw [pm_nocolon f lines i indent data hlen hskip hlt hgt hdash hcol] at h
                  have hb := ihm _ _ _ _ _ _ h
                  omega
                | true =>
                  by_cases hpipe : restOf (lineTail lines i indent) = ['|']
                  · rw [pm_key_pipe f lines i indent data hlen hskip hlt hgt hdash hcol hpipe] at h
                    have hbs := pbs_idx_bounds lines (i + 1) (indent + 2)
                    have hb := ihm _ _ _ _ _ _ h
                    omega
                  · by_cases hemp : restOf (lineTail lines i indent) = []
                    · rw [pm_key_nested f lines i indent data hlen hskip hlt hgt hdash hcol hpipe hemp] at h
                      rcases hX : parseBlockAux f lines (i + 1) (indent + 2) BObj.none with _ | (e | ⟨vn, vj⟩)
                      · rw [hX] at h
                        simp at h
                      · rw [hX] at h
                        simp only [obind_err] at h
                        simp at h
                      · rw [hX] at h
                        simp only [obind_ok] at h
                        have hs := ihb _ _ _ _ _ _ hX
                        have hb := ihm _ _ _ _ _ _ h
                        omega
                    · rw [pm_key_scalar f lines i indent data hlen hskip hlt hgt hdash hcol hpipe hemp] at h
                      have hb := ihm _ _ _ _ _ _ h
                      omega
      · rw [pm_eof f lines i indent data hlen] at h
        obtain ⟨-, rfl⟩ := by simpa using h
        omega

/-! ### Fuel sufficiency: the loops always complete with `lines.length + 1`
fuel, because every step advances the cursor -/

theorem ccStep_some (fuel : Nat) (lines : List Ln) (indent : Nat)
    (ihbs : PBsome fuel) (ihms : PMsome fuel)
    (di : List (Ln × Node) × Nat) (obj : BObj)
    (hdi : lines.length - di.2 + 1 ≤ fuel) :
    (obind
        (if di.2 < lines.length ∧ pyIndentOf (lines.getD di.2 []) = indent + 2
            ∧ dashSp.isPrefixOf (pyLstrip (lines.getD di.2 [])) = false then
          obind (parseMapAux fuel lines di.2 (indent + 2) []) fun ei =>
            Option.some (Except.ok (dictUpdate di.1 ei.1, ei.2))
        else Option.some (Except.ok di))
        fun di2 =>
      ebind (bAppend obj.orSeq (Node.mapping di2.1)) fun obj2 =>
        parseBlockAux fuel lines di2.2 indent obj2).isSome := by
  by_cases hcont : di.2 < lines.length ∧ pyIndentOf (lines.getD di.2 []) = indent + 2
      ∧ dashSp.isPrefixOf (pyLstrip (lines.getD di.2 [])) = false
  · rw [if_pos hcont]
    have hMs := ihms lines di.2 (indent + 2) [] hdi
    rcases hM : parseMapAux fuel lines di.2 (indent + 2) [] with _ | (e | ⟨en, ej⟩)
    · rw [hM] at hMs
      simp at hMs
    · simp
    · simp only [obind_ok]
      have hb := (parseAux_le fuel).2 _ _ _ _ _ _ hM
      cases obj with
      | none =>
        simp only [orSeq_none, bAppend_seq, ebind_ok]
        exact ihbs _ _ _ _ (by omega)
      | map pairs =>
        simp only [orSeq_map, bAppend_map, ebind_err]
        simp
      | seq items =>
        simp only [orSeq_seq, bAppend_seq, ebind_ok]
        exact ihbs _ _ _ _ (by omega)
  · rw [if_neg hcont]
    simp only [obind_ok]
    cases obj with
    | none =>
      simp only [orSeq_none, bAppend_seq, ebind_ok]
      exact ihbs _ _ _ _ hdi
    | map pairs =>
      simp only [orSeq_map, bAppend_map, ebind_err]
      simp
    | seq items =>
      simp only [orSeq_seq, bAppend_seq, ebind_ok]
      exact ihbs _ _ _ _ hdi

theorem parseAux_some (fuel : Nat) : PBsome fuel ∧ PMsome fuel := by
  induction fuel with
  | zero =>
    refine ⟨fun lines i indent obj hf => ?_, fun lines i indent data hf => ?_⟩ <;> omega
  | succ f ih =>
    obtain ⟨ihbs, ihms⟩ := ih
    refine ⟨fun lines i indent obj hf => ?_, fun lines i indent data hf => ?_⟩
    · by_cases hlen : i < lines.length
      · by_cases hskip : pyStrip (lines.getD i []) = [] ∨ ['#'].isPrefixOf (pyLstrip (lines.getD i [])) = true
        · rw [pb_skip f lines i indent obj hlen hskip]
          exact ihbs _ _ _ _ (by omega)
        · by_cases hlt : pyIndentOf (lines.getD i []) < indent
          · rw [pb_low f lines i indent obj hlen hskip hlt]
            simp
          · by_cases hgt : pyIndentOf (lines.getD i []) > indent
            · rw [pb_high f lines i indent obj hlen hskip hlt hgt]
              simp
            · cases hdash : dashSp.isPrefixOf (lineTail lines i indent) with
              | true =>
                by_cases hnil : itemAt lines i indent = []
                · rw [pb_dash_nil f lines i indent obj hlen hskip hlt hgt hdash hnil]
                  have hXs := ihbs lines (i + 1) (indent + 2) BObj.none (by omega)
                  rcases hX : parseBlockAux f lines (i + 1) (indent + 2) BObj.none with _ | (e | ⟨vn, vj⟩)
                  · rw [hX] at hXs
                    simp at hXs
                  · simp
                  · simp only [obind_ok]
                    have hb := (parseAux_le f).1 _ _ _ _ _ _ hX
                    cases obj with
                    | none =>
                      simp only [orSeq_none, bAppend_seq, ebind_ok]
                      exact ihbs _ _ _ _ (by omega)
                    | map pairs =>
                      simp only [orSeq_map, bAppend_map, ebind_err]
                      simp
                    | seq items =>
                      simp only [orSeq_seq, bAppend_seq, ebind_ok]
                      exact ihbs _ _ _ _ (by omega)
                · cases hcol : hasColon (itemAt lines i indent) with
                  | false =>
                    rw [pb_dash_scalar f lines i indent obj hlen hskip hlt hgt hdash hnil hcol]
                    cases obj with
                    | none =>
                      simp only [orSeq_none, bAppend_seq, ebind_ok]
                      exact ihbs _ _ _ _ (by omega)
                    | map pairs =>
                      simp only [orSeq_map, bAppend_map, ebind_err]
                      simp
                    | seq items =>
                      simp only [orSeq_seq, bAppend_seq, ebind_ok]
                      exact ihbs _ _ _ _ (by omega)
                  | true =>
                    rw [pb_dash_colon f lines i indent obj hlen hskip hlt hgt hdash hnil hcol]
                    by_cases hpipe : restOf (itemAt lines i indent) = ['|']
                    · rw [if_pos hpipe]
                      simp only [obind_ok]
                      have hbs := pbs_idx_bounds lines (i + 1) (indent + 2)
                      exact ccStep_some f lines indent ihbs ihms
                        (dictSet [] (keyOf (itemAt lines i indent))
                          (Node.scalar (_parse_block_scalar lines (i + 1) (indent + 2)).1),
                         (_parse_block_scalar lines (i + 1) (indent + 2)).2) obj (by omega)
                    · by_cases hemp : restOf (itemAt lines i indent) = []
                      · rw [if_neg hpipe, if_pos hemp]
                        have hXs := ihbs lines (i + 1) (indent + 2) BObj.none (by omega)
                        rcases hX : parseBlockAux f lines (i + 1) (indent + 2) BObj.none with _ | (e | ⟨vn, vj⟩)
                        · rw [hX] at hXs
                          simp at hXs
                        · simp
                        · simp only [obind_ok]
                          have hb := (parseAux_le f).1 _ _ _ _ _ _ hX
                          exact ccStep_some f lines indent ihbs ihms
                            (dictSet [] (keyOf (itemAt lines i indent)) vn, vj) obj (by omega)
                      · rw [if_neg hpipe, if_neg hemp]
                        simp only [obind_ok]
                        exact ccStep_some f lines indent ihbs ihms
                          (dictSet [] (keyOf (itemAt lines i indent))
                            (Node.scalar (_parse_scalar (restOf (itemAt lines i indent)))), i + 1) obj
                          (by omega)
              | false =>
                cases hcol : hasColon (lineTail lines i indent) with
                | false =>
                  rw [pb_nocolon f lines i indent obj hlen hskip hlt hgt hdash hcol]
                  exact ihbs _ _ _ _ (by omega)
                | true =>
                  by_cases hpipe : restOf (lineTail lines i indent) = ['|']
                  · rw [pb_key_pipe f lines i indent obj hlen hskip hlt hgt hdash hcol hpipe]
                    have hbs := pbs_idx_bounds lines (i + 1) (indent + 2)
                    cases obj with
                    | none =>
                      simp only [orMap_none, bSetKey_map, ebind_ok]
                      exact ihbs _ _ _ _ (by omega)
                    | map pairs =>
                      simp only [orMap_map, bSetKey_map, ebind_ok]
                      exact ihbs _ _ _ _ (by omega)
                    | seq items =>
                      simp only [orMap_seq, bSetKey_seq, ebind_err]
                      simp
                  · by_cases hemp : restOf (lineTail lines i indent) = []
                    · rw [pb_key_nested f lines i indent obj hlen hskip hlt hgt hdash hcol hpipe hemp]
                      have hXs := ihbs lines (i + 1) (indent + 2) BObj.none (by omega)
                      rcases hX : parseBlockAux f lines (i + 1) (indent + 2) BObj.none with _ | (e | ⟨vn, vj⟩)
                      · rw [hX] at hXs
                        simp at hXs
                      · simp
                      · simp only [obind_ok]
                        have hb := (parseAux_le f).1 _ _ _ _ _ _ hX
                        cases obj with
                        | none =>
                          simp only [orMap_none, bSetKey_map, ebind_ok]
                          exact ihbs _ _ _ _ (by omega)
                        | map pairs =>
                          simp only [orMap_map, bSetKey_map, ebind_ok]
                          exact ihbs _ _ _ _ (by omega)
                        | seq items =>
                          simp only [orMap_seq, bSetKey_seq, ebind_err]
                          simp
                    · rw [pb_key_scalar f lines i indent obj hlen hskip hlt hgt hdash hcol hpipe hemp]
                      cases obj with
                      | none =>
                        simp only [orMap_none, bSetKey_map, ebind_ok]
                        exact ihbs _ _ _ _ (by omega)
                      | map pairs =>
                        simp only [orMap_map, bSetKey_map, ebind_ok]
                        exact ihbs _ _ _ _ (by omega)
                      | seq items =>
                        simp only [orMap_seq, bSetKey_seq, ebind_err]
                        simp
      · rw [pb_eof f lines i indent obj hlen]
        simp
    · by_cases hlen : i < lines.length
      · by_cases hskip : pyStrip (lines.getD i []) = [] ∨ ['#'].isPrefixOf (pyLstrip (lines.getD i [])) = true
        · rw [pm_skip f lines i indent data hlen hskip]
          exact ihms _ _ _ _ (by omega)
        · by_cases hlt : pyIndentOf (lines.getD i []) < indent
          · rw [pm_low f lines i indent data hlen hskip hlt]
            simp
          · by_cases hgt : pyIndentOf (lines.getD i []) > indent
            · rw [pm_high f lines i indent data hlen hskip hlt hgt]
              simp
            · cases hdash : dashSp.isPrefixOf (lineTail lines i indent) with
              | true =>
                rw [pm_dash f lines i indent data hlen hskip hlt hgt hdash]
                simp
              | false =>
                cases hcol : hasColon (lineTail lines i indent) with
                | false =>
                  rw [pm_nocolon f lines i indent data hlen hskip hlt hgt hdash hcol]
                  exact ihms _ _ _ _ (by omega)
                | true =>
                  by_cases hpipe : restOf (lineTail lines i indent) = ['|']
                  · rw [pm_key_pipe f lines i indent data hlen hskip hlt hgt hdash hcol hpipe]
                    have hbs := pbs_idx_bounds lines (i + 1) (indent + 2)
                    exact ihms _ _ _ _ (by omega)
                  · by_cases hemp : restOf (lineTail lines i indent) = []
                    · rw [pm_key_nested f lines i indent data hlen hskip hlt hgt hdash hcol hpipe hemp]
                      have hXs := ihbs lines (i + 1) (indent + 2) BObj.none (by omega)
                      rcases hX : parseBlockAux f lines (i + 1) (indent + 2) BObj.none with _ | (e | ⟨vn, vj⟩)
                      · rw [hX] at hXs
                        simp at hXs
                      · simp
                      · simp only [obind_ok]
                        have hb := (parseAux_le f).1 _ _ _ _ _ _ hX
                        exact ihms _ _ _ _ (by omega)
                    · rw [pm_key_scalar f lines i indent data hlen hskip hlt hgt hdash hcol hpipe hemp]
                      exact ihms _ _ _ _ (by omega)
      · rw [pm_eof f lines i indent data hlen]
        simp

/-! ### The dict operations preserve key-uniqueness -/

theorem dictWF_nil : DictWF [] := ⟨List.nodup_nil, by simp⟩

theorem dictSet_wf (d : List (Ln × Node)) (k : Ln) (v : Node)
    (hd : DictWF d) (hv : NodeWF v) : DictWF (dictSet d k v) := by
  obtain ⟨hkeys, hvals⟩ := hd
  unfold dictSet
  by_cases hany : d.any (fun p => p.1 == k)
  · rw [if_pos hany]
    constructor
    · have : (d.map (fun p => if p.1 == k then (k, v) else p)).map Prod.fst = d.map Prod.fst := by
        rw [List.map_map]
        apply List.map_congr_left
        intro p hp
        by_cases hpk : p.1 == k
        · simp only [Function.comp_apply, if_pos hpk]
          exact (eq_of_beq hpk).symm
        · simp only [Function.comp_apply, if_neg hpk]
      rw [this]
      exact hkeys
    · intro p hp
      obtain ⟨q, hq, hqp⟩ := List.mem_map.mp hp
      by_cases hqk : q.1 == k
      · rw [if_pos hqk] at hqp
        rw [← hqp]
        exact hv
      · rw [if_neg hqk] at hqp
        rw [← hqp]
        exact hvals q hq
  · rw [if_neg hany]
    constructor
    · rw [List.map_append, List.nodup_append]
      refine ⟨hkeys, List.nodup_singleton k, ?_⟩
      intro a ha hb
      simp only [List.map_cons, List.map_nil, List.mem_singleton] at hb
      subst hb
      obtain ⟨q, hq, hqa⟩ := List.mem_map.mp ha
      have : ¬ (q.1 == a) := by
        intro hq1
        exact hany (List.any_eq_true.mpr ⟨q, hq, hq1⟩)
      exact this (beq_iff_eq.mpr hqa)
    · intro p hp
      rcases List.mem_append.mp hp with hin | hin
      · exact hvals p hin
      · simp only [List.mem_singleton] at hin
        rw [hin]
        exact hv

theorem dictUpdate_wf (extra : List (Ln × Node)) (d : List (Ln × Node))
    (hd : DictWF d) (hex : ∀ p ∈ extra, NodeWF p.2) : DictWF (dictUpdate d extra) := by
  induction extra generalizing d with
  | nil => exact hd
  | cons p ps ih =>
    have hp := hex p (List.mem_cons_self p ps)
    exact ih (dictSet d p.1 p.2) (dictSet_wf d p.1 p.2 hd hp)
      (fun q hq => hex q (List.mem_cons_of_mem p hq))

theorem bobjWF_toNode (obj : BObj) (h : BObjWF obj) : NodeWF obj.toNode := by
  cases obj with
  | none => exact NodeWF.empty
  | map d => exact NodeWF.mapping d h.1 h.2
  | seq l => exact NodeWF.sequence l h

theorem bobjWF_orMap (obj : BObj) (h : BObjWF obj) : BObjWF obj.orMap := by
  cases obj with
  | none => exact dictWF_nil
  | map d => exact h
  | seq l => exact h

theorem bobjWF_orSeq (obj : BObj) (h : BObjWF obj) : BObjWF obj.orSeq := by
  cases obj with
  | none => exact fun x hx => by simp at hx
  | map d => exact h
  | seq l => exact h

theorem seqWF_push (items : List Node) (x : Node)
    (h : ∀ y ∈ items, NodeWF y) (hx : NodeWF x) : ∀ y ∈ items ++ [x], NodeWF y := by
  intro y hy
  rcases List.mem_append.mp hy with hin | hin
  · exact h y hin
  · simp only [List.mem_singleton] at hin
    rw [hin]
    exact hx

theorem ccStep_wf (fuel : Nat) (lines : List Ln) (indent : Nat)
    (ihbw : PBwf fuel) (ihmw : PMwf fuel)
    (di : List (Ln × Node) × Nat) (obj : BObj) (v : Node) (j : Nat)
    (hdi : DictWF di.1) (hobj : BObjWF obj)
    (h : (obind
        (if di.2 < lines.length ∧ pyIndentOf (lines.getD di.2 []) = indent + 2
            ∧ dashSp.isPrefixOf (pyLstrip (lines.getD di.2 [])) = false then
          obind (parseMapAux fuel lines di.2 (indent + 2) []) fun ei =>
            Option.some (Except.ok (dictUpdate di.1 ei.1, ei.2))
        else Option.some (Except.ok di))
        fun di2 =>
      ebind (bAppend obj.orSeq (Node.mapping di2.1)) fun obj2 =>
        parseBlockAux fuel lines di2.2 indent obj2) = Option.some (Except.ok (v, j))) :
    NodeWF v := by
  by_cases hcont : di.2 < lines.length ∧ pyIndentOf (lines.getD di.2 []) = indent + 2
      ∧ dashSp.isPrefixOf (pyLstrip (lines.getD di.2 [])) = false
  · rw [if_pos hcont] at h
    rcases hM : parseMapAux fuel lines di.2 (indent + 2) [] with _ | (e | ⟨en, ej⟩)
    · rw [hM] at h
      simp at h
    · rw [hM] at h
      simp only [obind_err] at h
      simp at h
    · rw [hM] at h
      simp only [obind_ok] at h
      have hen := ihmw _ _ _ _ _ _ dictWF_nil hM
      have hdu := dictUpdate_wf en di.1 hdi hen.2
      have hmap : NodeWF (Node.mapping (dictUpdate di.1 en)) := NodeWF.mapping _ hdu.1 hdu.2
      cases obj with
      | none =>
        simp only [orSeq_none, bAppend_seq, ebind_ok] at h
        refine ihbw _ _ _ _ _ _ ?_ h
        exact seqWF_push [] _ (by simp) hmap
      | map pairs =>
        simp only [orSeq_map, bAppend_map, ebind_err] at h
        simp at h
      | seq items =>
        simp only [orSeq_seq, bAppend_seq, ebind_ok] at h
        refine ihbw _ _ _ _ _ _ ?_ h
        exact seqWF_push items _ hobj hmap
  · rw [if_neg hcont] at h
    simp only [obind_ok] at h
    have hmap : NodeWF (Node.mapping di.1) := NodeWF.mapping _ hdi.1 hdi.2
    cases obj with
    | none =>
      simp only [orSeq_none, bAppend_seq, ebind_ok] at h
      refine ihbw _ _ _ _ _ _ ?_ h
      exact seqWF_push [] _ (by simp) hmap
    | map pairs =>
      simp only [orSeq_map, bAppend_map, ebind_err] at h
      simp at h
    | seq items =>
      simp only [orSeq_seq, bAppend_seq, ebind_ok] at h
      refine ihbw _ _ _ _ _ _ ?_ h
      exact seqWF_push items _ hobj hmap

theorem parseAux_wf (fuel : Nat) : PBwf fuel ∧ PMwf fuel := by
  induction fuel with
  | zero =>
    refine ⟨fun lines i indent obj v j hobj h => ?_, fun lines i indent data e j hdata h => ?_⟩
    · rw [parseBlockAux_zero] at h
      cases h
    · rw [parseMapAux_zero] at h
      cases h
  | succ f ih =>
    obtain ⟨ihbw, ihmw⟩ := ih
    refine ⟨fun lines i indent obj v j hobj h => ?_, fun lines i indent data e j hdata h => ?_⟩
    · by_cases hlen : i < lines.length
      · by_cases hskip : pyStrip (lines.getD i []) = [] ∨ ['#'].isPrefixOf (pyLstrip (lines.getD i [])) = true
        · rw [pb_skip f lines i indent obj hlen hskip] at h
          exact ihbw _ _ _ _ _ _ hobj h
        · by_cases hlt : pyIndentOf (lines.getD i []) < indent
          · rw [pb_low f lines i indent obj hlen hskip hlt] at h
            obtain ⟨h1, -⟩ := by simpa using h
            exact h1 ▸ bobjWF_toNode obj hobj
          · by_cases hgt : pyIndentOf (lines.getD i []) > indent
            · rw [pb_high f lines i indent obj hlen hskip hlt hgt] at h
              obtain ⟨h1, -⟩ := by simpa using h
              exact h1 ▸ bobjWF_toNode obj hobj
            · cases hdash : dashSp.isPrefixOf (lineTail lines i indent) with
              | true =>
                by_cases hnil : itemAt lines i indent = []
                · rw [pb_dash_nil f lines i indent obj hlen hskip hlt hgt hdash hnil] at h
                  rcases hX : parseBlockAux f lines (i + 1) (indent + 2) BObj.none with _ | (e | ⟨vn, vj⟩)
                  · rw [hX] at h
                    simp at h
                  · rw [hX] at h
                    simp only [obind_err] at h
                    simp at h
                  · rw [hX] at h
                    simp only [obind_ok] at h
                    have hvn := ihbw _ _ _ _ _ _ (by trivial) hX
                    cases obj with
                    | none =>
                      simp only [orSeq_none, bAppend_seq, ebind_ok] at h
                      refine ihbw _ _ _ _ _ _ ?_ h
                      exact seqWF_push [] _ (by simp) hvn
                    | map pairs =>
                      simp only [orSeq_map, bAppend_map, ebind_err] at h
                      simp at h
                    | seq items =>
                      simp only [orSeq_seq, bAppend_seq, ebind_ok] at h
                      refine ihbw _ _ _ _ _ _ ?_ h
                      exact seqWF_push items _ hobj hvn
                · cases hcol : hasColon (itemAt lines i indent) with
                  | false =>
                    rw [pb_dash_scalar f lines i indent obj hlen hskip hlt hgt hdash hnil hcol] at h
                    cases obj with
                    | none =>
                      simp only [orSeq_none, bAppend_seq, ebind_ok] at h
                      refine ihbw _ _ _ _ _ _ ?_ h
                      exact seqWF_push [] _ (by simp) (NodeWF.scalar _)
                    | map pairs =>
                      simp only [orSeq_map, bAppend_map, ebind_err] at h
                      simp at h
                    | seq items =>
                      simp only [orSeq_seq, bAppend_seq, ebind_ok] at h
                      refine ihbw _ _ _ _ _ _ ?_ h
                      exact seqWF_push items _ hobj (NodeWF.scalar _)
                  | true =>
                    rw [pb_dash_colon f lines i indent obj hlen hskip hlt hgt hdash hnil hcol] at h
                    by_cases hpipe : restOf (itemAt lines i indent) = ['|']
                    · rw [if_pos hpipe] at h
                      simp only [obind_ok] at h
                      refine ccStep_wf f lines indent ihbw ihmw
                        (dictSet [] (keyOf (itemAt lines i indent))
                          (Node.scalar (_parse_block_scalar lines (i + 1) (indent + 2)).1),
                         (_parse_block_scalar lines (i + 1) (indent + 2)).2) obj v j ?_ hobj h
                      exact dictSet_wf [] _ _ dictWF_nil (NodeWF.scalar _)
                    · by_cases hemp : restOf (itemAt lines i indent) = []
                      · rw [if_neg hpipe, if_pos hemp] at h
                        rcases hX : parseBlockAux f lines (i + 1) (indent + 2) BObj.none with _ | (e | ⟨vn, vj⟩)
                        · rw [hX] at h
                          simp at h
                        · rw [hX] at h
                          simp only [obind_err] at h
                          simp at h
                        · rw [hX] at h
                          simp only [obind_ok] at h
                          have hvn := ihbw _ _ _ _ _ _ (by trivial) hX
                          refine ccStep_wf f lines indent ihbw ihmw
                            (dictSet [] (keyOf (itemAt lines i indent)) vn, vj) obj v j ?_ hobj h
                          exact dictSet_wf [] _ _ dictWF_nil hvn
                      · rw [if_neg hpipe, if_neg hemp] at h
                        simp only [obind_ok] at h
                        refine ccStep_wf f lines indent ihbw ihmw
                          (dictSet [] (keyOf (itemAt lines i indent))
                            (Node.scalar (_parse_scalar (restOf (itemAt lines i indent)))), i + 1) obj v j ?_ hobj h
                        exact dictSet_wf [] _ _ dictWF_nil (NodeWF.scalar _)
              | false =>
                cases hcol : hasColon (lineTail lines i indent) with
                | false =>
                  rw [pb_nocolon f lines i indent obj hlen hskip hlt hgt hdash hcol] at h
                  exact ihbw _ _ _ _ _ _ (bobjWF_orMap obj hobj) h
                | true =>
                  by_cases hpipe : restOf (lineTail lines i indent) = ['|']
                  · rw [pb_key_pipe f lines i indent obj hlen hskip hlt hgt hdash hcol hpipe] at h
                    cases obj with
                    | none =>
                      simp only [orMap_none, bSetKey_map, ebind_ok] at h
                      refine ihbw _ _ _ _ _ _ ?_ h
                      exact dictSet_wf [] _ _ dictWF_nil (NodeWF.scalar _)
                    | map pairs =>
                      simp only [orMap_map, bSetKey_map, ebind_ok] at h
                      refine ihbw _ _ _ _ _ _ ?_ h
                      exact dictSet_wf pairs _ _ hobj (NodeWF.scalar _)
                    | seq items =>
                      simp only [orMap_seq, bSetKey_seq, ebind_err] at h
                      simp at h
                  · by_cases hemp : restOf (lineTail lines i indent) = []
                    · rw [pb_key_nested f lines i indent obj hlen hskip hlt hgt hdash hcol hpipe hemp] at h
                      rcases hX : parseBlockAux f lines (i + 1) (indent + 2) BObj.none with _ | (e | ⟨vn, vj⟩)
                      · rw [hX] at h
                        simp at h
                      · rw [hX] at h
                        simp only [obind_err] at h
                        simp at h
                      · rw [hX] at h
                        simp only [obind_ok] at h
                        have hvn := ihbw _ _ _ _ _ _ (by trivial) hX
                        cases obj with
                        | none =>
                          simp only [orMap_none, bSetKey_map, ebind_ok] at h
                          refine ihbw _ _ _ _ _ _ ?_ h
                          exact dictSet_wf [] _ _ dictWF_nil hvn
                        | map pairs =>
                          simp only [orMap_map, bSetKey_map, ebind_ok] at h
                          refine ihbw _ _ _ _ _ _ ?_ h
                          exact dictSet_wf pairs _ _ hobj hvn
                        | seq items =>
                          simp only [orMap_seq, bSetKey_seq, ebind_err] at h
                          simp at h
                    · rw [pb_key_scalar f lines i indent obj hlen hskip hlt hgt hdash hcol hpipe hemp] at h
                      cases obj with
                      | none =>
                        simp only [orMap_none, bSetKey_map, ebind_ok] at h
                        refine ihbw _ _ _ _ _ _ ?_ h
                        exact dictSet_wf [] _ _ dictWF_nil (NodeWF.scalar _)
                      | map pairs =>
                        simp only [orMap_map, bSetKey_map, ebind_ok] at h
                        refine ihbw _ _ _ _ _ _ ?_ h
                        exact dictSet_wf pairs _ _ hobj (NodeWF.scalar _)
                      | seq items =>
                        simp only [orMap_seq, bSetKey_seq, ebind_err] at h
                        simp at h
      · rw [pb_eof f lines i indent obj hlen] at h
        obtain ⟨h1, -⟩ := by simpa using h
        exact h1 ▸ bobjWF_toNode obj hobj
    · by_cases hlen : i < lines.length
      · by_cases hskip : pyStrip (lines.getD i []) = [] ∨ ['#'].isPrefixOf (pyLstrip (lines.getD i [])) = true
        · rw [pm_skip f lines i indent data hlen hskip] at h
          exact ihmw _ _ _ _ _ _ hdata h
        · by_cases hlt : pyIndentOf (lines.getD i []) < indent
          · rw [pm_low f lines i indent data hlen hskip hlt] at h
            obtain ⟨h1, -⟩ := by simpa using h
            exact h1 ▸ hdata
          · by_cases hgt : pyIndentOf (lines.getD i []) > indent
            · rw [pm_high f lines i indent data hlen hskip hlt hgt] at h
              obtain ⟨h1, -⟩ := by simpa using h
              exact h1 ▸ hdata
            · cases hdash : dashSp.isPrefixOf (lineTail lines i indent) with
              | true =>
                rw [pm_dash f lines i indent data hlen hskip hlt hgt hdash] at h
                obtain ⟨h1, -⟩ := by simpa using h
                exact h1 ▸ hdata
              | false =>
                cases hcol : hasColon (lineTail lines i indent) with
                | false =>
                  rw [pm_nocolon f lines i indent data hlen hskip hlt hgt hdash hcol] at h
                  exact ihmw _ _ _ _ _ _ hdata h
                | true =>
                  by_cases hpipe : restOf (lineTail lines i indent) = ['|']
                  · rw [pm_key_pipe f lines i indent data hlen hskip hlt hgt hdash hcol hpipe] at h
                    exact ihmw _ _ _ _ _ _ (dictSet_wf data _ _ hdata (NodeWF.scalar _)) h
                  · by_cases hemp : restOf (lineTail lines i indent) = []
                    · rw [pm_key_nested f lines i indent data hlen hskip hlt hgt hdash hcol hpipe hemp] at h
                      rcases hX : parseBlockAux f lines (i + 1) (indent + 2) BObj.none with _ | (e | ⟨vn, vj⟩)
                      · rw [hX] at h
                        simp at h
                      · rw [hX] at h
                        simp only [obind_err] at h
                        simp at h
                      · rw [hX] at h
                        simp only [obind_ok] at h
                        have hvn := ihbw _ _ _ _ _ _ (by trivial) hX
                        exact ihmw _ _ _ _ _ _ (dictSet_wf data _ _ hdata hvn) h
                    · rw [pm_key_scalar f lines i indent data hlen hskip hlt hgt hdash hcol hpipe hemp] at h
                      exact ihmw _ _ _ _ _ _ (dictSet_wf data _ _ hdata (NodeWF.scalar _)) h
      · rw [pm_eof f lines i indent data hlen] at h
        obtain ⟨h1, -⟩ := by simpa using h
        exact h1 ▸ hdata

/-! ### Remaining helpers: block-scalar characterisation, skip chains,
`obind` associativity -/

theorem obind_assoc {α β γ : Type} (x : Option (Except PyErr α))
    (f : α → Option (Except PyErr β)) (g : β → Option (Except PyErr γ)) :
    obind (obind x f) g = obind x (fun a => obind (f a) g) := by
  rcases x with _ | (e | a) <;> rfl

theorem blockScalarRun_spec (rest : List Ln) (indent : Nat) :
    blockScalarRun rest indent =
      ((rest.takeWhile (fun l => indent ≤ pyIndentOf l)).map (fun l => l.drop indent),
       (rest.takeWhile (fun l => indent ≤ pyIndentOf l)).length) := by
  induction rest with
  | nil => rfl
  | cons raw rs ih =>
    simp only [blockScalarRun, List.takeWhile_cons]
    by_cases hlt : pyIndentOf raw < indent
    · rw [if_pos hlt]
      have hd : ¬ indent ≤ pyIndentOf raw := by omega
      simp [hd]
    · rw [if_neg hlt]
      have hd : indent ≤ pyIndentOf raw := by omega
      simp [hd, ih]

theorem blockScalarRun_stop (rest : List Ln) (indent : Nat) :
    (blockScalarRun rest indent).2 = rest.length ∨
      ((blockScalarRun rest indent).2 < rest.length ∧
        pyIndentOf (rest.getD (blockScalarRun rest indent).2 []) < indent) := by
  induction rest with
  | nil => left; rfl
  | cons raw rs ih =>
    simp only [blockScalarRun]
    by_cases hlt : pyIndentOf raw < indent
    · rw [if_pos hlt]
      right
      exact ⟨by simp, hlt⟩
    · rw [if_neg hlt]
      rcases ih with h | ⟨h1, h2⟩
      · left
        simp [h]
      · right
        refine ⟨by simp; omega, ?_⟩
        simpa using h2

theorem getD_drop (lines : List Ln) (start k : Nat) :
    (lines.drop start).getD k [] = lines.getD (start + k) [] := by
  simp [List.getD_eq_getElem?_getD, List.getElem?_drop]

theorem pb_skipChain (lines : List Ln) (indent : Nat) (obj : BObj) (j : Nat) :
    ∀ fuel i, i ≤ j → j - i < fuel →
      (∀ k, i ≤ k → k < j →
        pyStrip (lines.getD k []) = [] ∨ ['#'].isPrefixOf (pyLstrip (lines.getD k [])) = true) →
      j < lines.length →
      ¬ (pyStrip (lines.getD j []) = [] ∨ ['#'].isPrefixOf (pyLstrip (lines.getD j [])) = true) →
      pyIndentOf (lines.getD j []) > indent →
      parseBlockAux fuel lines i indent obj = Option.some (Except.ok (obj.toNode, j)) := by
  intro fuel
  induction fuel with
  | zero => intro i h1 h2; omega
  | succ f ih =>
    intro i hij hfu hsk hlen hns hgt
    by_cases hej : i = j
    · subst hej
      exact pb_high f lines i indent obj hlen hns (by omega) hgt
    · have hlt : i < j := by omega
      rw [pb_skip f lines i indent obj (by omega) (hsk i (le_refl i) hlt)]
      exact ih (i + 1) (by omega) (by omega) (fun k hk1 hk2 => hsk k (by omega) hk2) hlen hns hgt

/-! ### Claim theorems -/

/-- C3: the Block-Scalar Reader consumes exactly the run of subsequent lines
whose indentation is at least the minimum indent `I`, regardless of content;
it strips exactly `I` leading characters from each, joins them with newline,
right-trims only the final result (internal lines are kept verbatim by the
join), and stops at the first line with indentation below `I` or at end of
input, returning that line's index as the next unconsumed index. -/
theorem C3_block_scalar_reader :
    ∀ (lines : List Ln) (start indent : Nat),
      _parse_block_scalar lines start indent =
        (pyRstrip (List.intercalate ['\n']
          (((lines.drop start).takeWhile (fun l => indent ≤ pyIndentOf l)).map
            (fun l => l.drop indent))),
         start + ((lines.drop start).takeWhile (fun l => indent ≤ pyIndentOf l)).length) ∧
      (start ≤ lines.length →
        ((_parse_block_scalar lines start indent).2 = lines.length ∨
          ((_parse_block_scalar lines start indent).2 < lines.length ∧
            pyIndentOf (lines.getD (_parse_block_scalar lines start indent).2 []) < indent))) := by
  intro lines start indent
  constructor
  · simp only [_parse_block_scalar, blockScalarRun_spec]
  · intro hstart
    have h := blockScalarRun_stop (lines.drop start) indent
    have hlen : (lines.drop start).length = lines.length - start := by simp
    have hidx := getD_drop lines start (blockScalarRun (lines.drop start) indent).2
    simp only [_parse_block_scalar]
    rcases h with h | ⟨h1, h2⟩
    · left
      omega
    · right
      rw [hidx] at h2
      exact ⟨by omega, h2⟩

/-- C3 witness: on `["a", "  b"]` from index 1 at indent 2, the reader stops
at end of input. -/
theorem C3_block_scalar_reader_witness :
    (_parse_block_scalar [str "a", str "  b"] 1 2).2 = [str "a", str "  b"].length ∨
    ((_parse_block_scalar [str "a", str "  b"] 1 2).2 < [str "a", str "  b"].length ∧
      pyIndentOf ([str "a", str "  b"].getD (_parse_block_scalar [str "a", str "  b"] 1 2).2 []) < 2) :=
  (C3_block_scalar_reader [str "a", str "  b"] 1 2).2 (by decide)

/-- C8: when the first substantive line of a block parse is indented strictly
deeper than the expected level, the parse returns `Empty` (Python `None`)
without error, and the returned index is that over-indented line's index
(the line is left unconsumed). -/
theorem C8_overindented_start_empty :
    ∀ (lines : List Ln) (start indent j : Nat),
      start ≤ j → j < lines.length →
      (∀ k, start ≤ k → k < j →
        pyStrip (lines.getD k []) = [] ∨ ['#'].isPrefixOf (pyLstrip (lines.getD k [])) = true) →
      ¬ (pyStrip (lines.getD j []) = [] ∨ ['#'].isPrefixOf (pyLstrip (lines.getD j [])) = true) →
      pyIndentOf (lines.getD j []) > indent →
      _parse_block lines start indent = Option.some (Except.ok (Node.empty, j)) := by
  intro lines start indent j hsj hj hsk hns hgt
  exact pb_skipChain lines indent BObj.none j (lines.length + 1) start hsj (by omega) hsk hj hns hgt

/-- C8 witness: a blank line followed by an over-indented line yields
`Empty` with the over-indented line unconsumed. -/
theorem C8_overindented_start_empty_witness :
    _parse_block [str "", str "    a: 1"] 0 0 = Option.some (Except.ok (Node.empty, 1)) :=
  C8_overindented_start_empty [str "", str "    a: 1"] 0 0 1 (by omega) (by decide)
    (fun k _ hk => by
      have hk0 : k = 0 := by omega
      subst hk0
      left
      rfl)
    (by decide) (by decide)

/-- C9: both parsing loops terminate on every input — fuel `lines.length + 1`
always completes, i.e. the document is scanned in one pass — and the cursor
never moves backward: every index returned by `_parse_block`, `_parse_map`
and `_parse_block_scalar` is at least the start index and at most the input
length (taking `max` with the start index covers start indices already past
the end). -/
theorem C9_termination_single_pass :
    (∀ (lines : List Ln) (start indent : Nat), (_parse_block lines start indent).isSome) ∧
    (∀ (lines : List Ln) (start indent : Nat), (_parse_map lines start indent).isSome) ∧
    (∀ (lines : List Ln) (start indent : Nat) (v : Node) (j : Nat),
      _parse_block lines start indent = Option.some (Except.ok (v, j)) →
        start ≤ j ∧ j ≤ max start lines.length) ∧
    (∀ (lines : List Ln) (start indent : Nat) (e : List (Ln × Node)) (j : Nat),
      _parse_map lines start indent = Option.some (Except.ok (e, j)) →
        start ≤ j ∧ j ≤ max start lines.length) ∧
    (∀ (lines : List Ln) (start indent : Nat),
      start ≤ (_parse_block_scalar lines start indent).2 ∧
        (_parse_block_scalar lines start indent).2 ≤ max start lines.length) := by
  refine ⟨?_, ?_, ?_, ?_, ?_⟩
  · intro lines start indent
    exact (parseAux_some (lines.length + 1)).1 lines start indent BObj.none (by omega)
  · intro lines start indent
    exact (parseAux_some (lines.length + 1)).2 lines start indent [] (by omega)
  · intro lines start indent v j h
    exact (parseAux_le (lines.length + 1)).1 _ _ _ _ _ _ h
  · intro lines start indent e j h
    exact (parseAux_le (lines.length + 1)).2 _ _ _ _ _ _ h
  · intro lines start indent
    exact pbs_idx_bounds lines start indent

/-- C9 witness: the bounds at a concrete completed parse. -/
theorem C9_termination_single_pass_witness :
    0 ≤ 1 ∧ 1 ≤ max 0 [str "a: 1"].length :=
  C9_termination_single_pass.2.2.1 [str "a: 1"] 0 0
    (Node.mapping [(str "a", Node.scalar (str "1"))]) 1 rfl

/-- C10: duplicate keys raise no error — the last occurrence wins, as in the
concrete document `a: 1\na: 2` — and every mapping node either loop produces
has pairwise-distinct keys, recursively (`NodeWF`). -/
theorem C10_duplicate_keys_last_wins :
    parse_yaml (str "a: 1\na: 2\n") = Option.some (Except.ok [(str "a", Node.scalar (str "2"))]) ∧
    (∀ (lines : List Ln) (start indent : Nat) (v : Node) (j : Nat),
      _parse_block lines start indent = Option.some (Except.ok (v, j)) → NodeWF v) ∧
    (∀ (lines : List Ln) (start indent : Nat) (d : List (Ln × Node)) (j : Nat),
      _parse_map lines start indent = Option.some (Except.ok (d, j)) →
        (d.map Prod.fst).Nodup ∧ ∀ p ∈ d, NodeWF p.2) := by
  refine ⟨rfl, ?_, ?_⟩
  · intro lines start indent v j h
    exact (parseAux_wf (lines.length + 1)).1 _ _ _ _ _ _ (by trivial) h
  · intro lines start indent d j h
    exact (parseAux_wf (lines.length + 1)).2 _ _ _ _ _ _ dictWF_nil h

/-- C10 witness: the tree parsed from a concrete document is well-formed. -/
theorem C10_duplicate_keys_last_wins_witness :
    NodeWF (Node.mapping [(str "a", Node.scalar (str "1"))]) :=
  C10_duplicate_keys_last_wins.2.1 [str "a: 1"] 0 0
    (Node.mapping [(str "a", Node.scalar (str "1"))]) 1 rfl

/-- C1 counterexample: a document consisting of the bare scalar line `hello`
does NOT raise `StructureError` — the colon-less line is leniently skipped
after the block is classified as a mapping, so `parse_yaml` returns the empty
mapping.  This contradicts the claim's "a bare scalar … raises
`StructureError`". -/
theorem C1_root_contract_counterexample :
    parse_yaml (str "hello") = Option.some (Except.ok []) ∧
    Option.some (Except.ok ([] : List (Ln × Node))) ≠
      Option.some (Except.error PyErr.valueError) := ⟨rfl, by simp⟩

/-- C1 amended: `parse_yaml` returns the root exactly when the top-level
block parse yields a `Mapping`, and raises `StructureError` (`ValueError`)
exactly when it yields any non-mapping (`Sequence` or `Empty`); a document of
bare scalar lines parses to an empty `Mapping` (the lines are skipped as
colon-less), so it does not raise.  A raised error inside the block parse
propagates unchanged. -/
theorem C1_root_contract_amended :
    (∀ (text : Ln) (m : List (Ln × Node)) (j : Nat),
      parseBlockAux ((pySplitlines text).length + 1) (pySplitlines text) 0 0 BObj.none
          = Option.some (Except.ok (Node.mapping m, j)) →
        parse_yaml text = Option.some (Except.ok m)) ∧
    (∀ (text : Ln) (v : Node) (j : Nat),
      parseBlockAux ((pySplitlines text).length + 1) (pySplitlines text) 0 0 BObj.none
          = Option.some (Except.ok (v, j)) →
        (∀ m, v ≠ Node.mapping m) →
        parse_yaml text = Option.some (Except.error PyErr.valueError)) ∧
    (∀ (text : Ln) (e : PyErr),
      parseBlockAux ((pySplitlines text).length + 1) (pySplitlines text) 0 0 BObj.none
          = Option.some (Except.error e) →
        parse_yaml text = Option.some (Except.error e)) ∧
    parse_yaml (str "abc\ndef") = Option.some (Except.ok []) := by
  refine ⟨?_, ?_, ?_, rfl⟩
  · intro text m j h
    simp only [parse_yaml]
    rw [h]
    rfl
  · intro text v j h hm
    simp only [parse_yaml]
    rw [h]
    cases v with
    | mapping m => exact absurd rfl (hm m)
    | sequence items => rfl
    | scalar s => rfl
    | empty => rfl
  · intro text e h
    simp only [parse_yaml]
    rw [h]
    rfl

/-- C1 amended witness: a one-pair document returns its mapping. -/
theorem C1_root_contract_amended_witness :
    parse_yaml (str "a: 1") = Option.some (Except.ok [(str "a", Node.scalar (str "1"))]) :=
  C1_root_contract_amended.1 (str "a: 1") [(str "a", Node.scalar (str "1"))] 1 rfl

/-- C2 counterexample: inside `_parse_block`, a mapping-classified block that
then meets a `- ` line at the same indent does NOT end normally — Python
calls `obj.append` on a dict and raises `AttributeError` — contradicting the
claim's "the pairs collected so far are returned normally … in neither case
is an error raised". -/
theorem C2_block_end_counterexample :
    _parse_block [str "a: 1", str "- x"] 0 0 =
      Option.some (Except.error PyErr.attributeError) ∧
    (Option.some (Except.error PyErr.attributeError) : Option (Except PyErr (Node × Nat))) ≠
      Option.some (Except.ok (Node.mapping [(str "a", Node.scalar (str "1"))], 1)) := ⟨rfl, by simp⟩

/-- C2 amended: the claimed behaviour holds for `_parse_map` — a substantive
line at indent `I` that begins with `- ` ends the mapping, returning the
pairs collected so far with the line unconsumed and no error.  In
`_parse_block`, by contrast, a `- ` line inside a mapping-classified block
raises `AttributeError`, a colon-bearing line inside a sequence-classified
block raises `TypeError`, and a colon-less line inside a
sequence-classified block is silently consumed. -/
theorem C2_block_end_amended :
    (∀ (fuel : Nat) (lines : List Ln) (i indent : Nat) (data : List (Ln × Node)),
      i < lines.length →
      ¬ (pyStrip (lines.getD i []) = [] ∨ ['#'].isPrefixOf (pyLstrip (lines.getD i [])) = true) →
      pyIndentOf (lines.getD i []) = indent →
      dashSp.isPrefixOf (lineTail lines i indent) = true →
      parseMapAux (fuel + 1) lines i indent data = Option.some (Except.ok (data, i))) ∧
    _parse_block [str "a: 1", str "- y"] 0 0 =
      Option.some (Except.error PyErr.attributeError) ∧
    _parse_block [str "- x", str "b: 2"] 0 0 =
      Option.some (Except.error PyErr.typeError) ∧
    _parse_block [str "- x", str "abc"] 0 0 =
      Option.some (Except.ok (Node.sequence [Node.scalar (str "x")], 2)) := by
  refine ⟨?_, rfl, rfl, rfl⟩
  intro fuel lines i indent data hlen hns hind hdash
  exact pm_dash fuel lines i indent data hlen hns (by omega) (by omega) hdash

/-- C2 amended witness: `_parse_map` machinery ends a mapping at a concrete
`- ` line, pairs so far returned, line unconsumed. -/
theorem C2_block_end_amended_witness :
    parseMapAux 2 [str "- z"] 0 0 [] = Option.some (Except.ok ([], 0)) :=
  C2_block_end_amended.1 1 [str "- z"] 0 0 [] (by decide) (by decide) (by decide) (by decide)

/-- C5 counterexample: inserting a blank line between the two fields of a
multi-field sequence item changes the resulting tree — the continuation
check reads the physically next line, the blank line fails its indent test,
and `value: 1` is silently dropped.  This contradicts "blank lines …
interspersed inside the block never terminate the block … and never appear
in the resulting tree — including a blank or comment line appearing between
the key/value fields of a multi-field sequence item". -/
theorem C5_blank_comment_counterexample :
    parse_yaml (str "items:\n  - name: x\n    value: 1\n") =
      Option.some (Except.ok [(str "items", Node.sequence
        [Node.mapping [(str "name", Node.scalar (str "x")),
                       (str "value", Node.scalar (str "1"))]])]) ∧
    parse_yaml (str "items:\n  - name: x\n\n    value: 1\n") =
      Option.some (Except.ok [(str "items", Node.sequence
        [Node.mapping [(str "name", Node.scalar (str "x"))]])]) := ⟨rfl, rfl⟩

/-- C5 amended: blank and `#`-comment lines are skipped without affecting the
state wherever the two scan loops look at a line — they never terminate a
block there and never enter the tree; the one exception is the multi-field
continuation check, which inspects the physically next line, so only a
comment line at exactly indent `I + 2` keeps the continuation alive (a blank
line, whose indent is its own length, breaks it, as the counterexample
shows). -/
theorem C5_blank_comment_amended :
    (∀ (fuel : Nat) (lines : List Ln) (i indent : Nat) (obj : BObj),
      i < lines.length →
      (pyStrip (lines.getD i []) = [] ∨ ['#'].isPrefixOf (pyLstrip (lines.getD i [])) = true) →
      parseBlockAux (fuel + 1) lines i indent obj = parseBlockAux fuel lines (i + 1) indent obj) ∧
    (∀ (fuel : Nat) (lines : List Ln) (i indent : Nat) (data : List (Ln × Node)),
      i < lines.length →
      (pyStrip (lines.getD i []) = [] ∨ ['#'].isPrefixOf (pyLstrip (lines.getD i [])) = true) →
      parseMapAux (fuel + 1) lines i indent data = parseMapAux fuel lines (i + 1) indent data) ∧
    parse_yaml (str "items:\n  - name: x\n    # c\n    value: 1\n") =
      Option.some (Except.ok [(str "items", Node.sequence
        [Node.mapping [(str "name", Node.scalar (str "x")),
                       (str "value", Node.scalar (str "1"))]])]) := by
  refine ⟨?_, ?_, rfl⟩
  · intro fuel lines i indent obj hlen hskip
    exact pb_skip fuel lines i indent obj hlen hskip
  · intro fuel lines i indent data hlen hskip
    exact pm_skip fuel lines i indent data hlen hskip

/-- C5 amended witness: a blank first line is skipped by the block loop. -/
theorem C5_blank_comment_amended_witness :
    parseBlockAux 3 [str "", str "a: 1"] 0 0 BObj.none =
      parseBlockAux 2 [str "", str "a: 1"] 1 0 BObj.none :=
  C5_blank_comment_amended.1 2 [str "", str "a: 1"] 0 0 BObj.none (by decide) (by decide)

/-- C6 counterexample: a trimmed value consisting of a single quote character
is NOT returned unchanged — Python's `startswith`/`endswith` both succeed on
the same single character, there is no length-2 check, and `value[1:-1]`
yields the empty string.  This contradicts the claim's "a trimmed string
consisting of a single quote character is returned unchanged". -/
theorem C6_scalar_normalizer_counterexample :
    _parse_scalar [sqCh] = [] ∧ ([] : Ln) ≠ [sqCh] := ⟨rfl, by decide⟩

/-- C6 amended: the Scalar Normalizer trims, then strips one outer pair if
and only if the trimmed value starts AND ends with the same quote character —
with no minimum-length requirement, so a trimmed single quote character
collapses to the empty string; otherwise the trimmed value is returned
as-is, and no escape processing or quote-pair collapsing happens: `'it''s'`
normalizes to `it''s`. -/
theorem C6_scalar_normalizer_amended :
    (∀ (s : Ln) (q : Char), (q = dqCh ∨ q = sqCh) → pyStrip s = [q] →
      _parse_scalar s = []) ∧
    (∀ (s : Ln) (q : Char), (q = dqCh ∨ q = sqCh) →
      [q].isPrefixOf (pyStrip s) = true → [q].isSuffixOf (pyStrip s) = true →
      _parse_scalar s = ((pyStrip s).drop 1).dropLast) ∧
    (∀ s : Ln,
      (([dqCh].isPrefixOf (pyStrip s) && [dqCh].isSuffixOf (pyStrip s))
        || ([sqCh].isPrefixOf (pyStrip s) && [sqCh].isSuffixOf (pyStrip s))) = false →
      _parse_scalar s = pyStrip s) ∧
    _parse_scalar [sqCh, 'i', 't', sqCh, sqCh, 's', sqCh] = ['i', 't', sqCh, sqCh, 's'] := by
  refine ⟨?_, ?_, ?_, rfl⟩
  · intro s q hq hstrip
    show _strip_quotes (pyStrip s) = []
    rw [hstrip]
    rcases hq with rfl | rfl <;> rfl
  · intro s q hq hpre hsuf
    have hcond : (([dqCh].isPrefixOf (pyStrip s) && [dqCh].isSuffixOf (pyStrip s))
        || ([sqCh].isPrefixOf (pyStrip s) && [sqCh].isSuffixOf (pyStrip s))) = true := by
      rcases hq with rfl | rfl <;> simp [hpre, hsuf]
    show _strip_quotes (pyStrip s) = ((pyStrip s).drop 1).dropLast
    unfold _strip_quotes
    rw [if_pos hcond]
  · intro s hcond
    show _strip_quotes (pyStrip s) = pyStrip s
    unfold _strip_quotes
    rw [if_neg (by simp [hcond])]

/-- C6 amended witness: the value `␣"` trims to a lone double quote and
normalizes to the empty string. -/
theorem C6_scalar_normalizer_amended_witness :
    _parse_scalar [' ', dqCh] = [] :=
  C6_scalar_normalizer_amended.1 [' ', dqCh] dqCh (Or.inl rfl) (by decide)

/-- C7 counterexample: the line `- x` contains no colon, yet inside an active
mapping it is NOT silently skipped: `_parse_map` ends the mapping there, so
the following `b: 2` line is never collected — the rest of the mapping is
not parsed as if the line were absent. -/
theorem C7_lenient_skip_counterexample :
    _parse_map [str "a: 1", str "- x", str "b: 2"] 0 0 =
      Option.some (Except.ok ([(str "a", Node.scalar (str "1"))], 1)) ∧
    _parse_map [str "a: 1", str "b: 2"] 0 0 =
      Option.some (Except.ok ([(str "a", Node.scalar (str "1")),
                               (str "b", Node.scalar (str "2"))], 2)) := ⟨rfl, rfl⟩

/-- C7 amended: a substantive colon-less line at indent `I` that does NOT
begin with `- ` is silently skipped by both loops — no error, nothing added,
parsing continues at the next line with the state unchanged.  A colon-less
line beginning with `- ` is instead treated as a sequence item: it ends the
mapping in `_parse_map` and raises `AttributeError` in a mapping-classified
`_parse_block`. -/
theorem C7_lenient_skip_amended :
    (∀ (fuel : Nat) (lines : List Ln) (i indent : Nat) (m : List (Ln × Node)),
      i < lines.length →
      ¬ (pyStrip (lines.getD i []) = [] ∨ ['#'].isPrefixOf (pyLstrip (lines.getD i [])) = true) →
      pyIndentOf (lines.getD i []) = indent →
      dashSp.isPrefixOf (lineTail lines i indent) = false →
      hasColon (lineTail lines i indent) = false →
      parseBlockAux (fuel + 1) lines i indent (BObj.map m) =
        parseBlockAux fuel lines (i + 1) indent (BObj.map m)) ∧
    (∀ (fuel : Nat) (lines : List Ln) (i indent : Nat) (data : List (Ln × Node)),
      i < lines.length →
      ¬ (pyStrip (lines.getD i []) = [] ∨ ['#'].isPrefixOf (pyLstrip (lines.getD i [])) = true) →
      pyIndentOf (lines.getD i []) = indent →
      dashSp.isPrefixOf (lineTail lines i indent) = false →
      hasColon (lineTail lines i indent) = false →
      parseMapAux (fuel + 1) lines i indent data = parseMapAux fuel lines (i + 1) indent data) ∧
    _parse_block [str "k: v", str "- w"] 0 0 =
      Option.some (Except.error PyErr.attributeError) := by
  refine ⟨?_, ?_, rfl⟩
  · intro fuel lines i indent m hlen hns hind hdash hcol
    exact pb_nocolon fuel lines i indent (BObj.map m) hlen hns (by omega) (by omega) hdash hcol
  · intro fuel lines i indent data hlen hns hind hdash hcol
    exact pm_nocolon fuel lines i indent data hlen hns (by omega) (by omega) hdash hcol

/-- C7 amended witness: a colon-less non-dash line is skipped by the block
loop with the mapping state unchanged. -/
theorem C7_lenient_skip_amended_witness :
    parseBlockAux 3 [str "abc"] 0 0 (BObj.map []) =
      parseBlockAux 2 [str "abc"] 1 0 (BObj.map []) :=
  C7_lenient_skip_amended.1 2 [str "abc"] 0 0 [] (by decide) (by decide) (by decide)
    (by decide) (by decide)

/-- C4: when a sequence item's first line is `- key: value` (plain scalar
value) at indent `I`, and the immediately following line exists at indent
`I + 2` and is not itself a new sequence item, the parser re-runs the
mapping-parsing logic at indent `I + 2` from that line and merges the extra
fields into the same single item mapping; in particular the four-line
document of the claim parses to
`{items: [{name: "x", value: "1"}, {name: "y"}]}`. -/
theorem C4_multifield_list_items :
    (∀ (fuel : Nat) (lines : List Ln) (i indent : Nat) (l : List Node),
      i < lines.length →
      ¬ (pyStrip (lines.getD i []) = [] ∨ ['#'].isPrefixOf (pyLstrip (lines.getD i [])) = true) →
      pyIndentOf (lines.getD i []) = indent →
      dashSp.isPrefixOf (lineTail lines i indent) = true →
      ¬ itemAt lines i indent = [] →
      hasColon (itemAt lines i indent) = true →
      ¬ restOf (itemAt lines i indent) = ['|'] →
      ¬ restOf (itemAt lines i indent) = [] →
      i + 1 < lines.length →
      pyIndentOf (lines.getD (i + 1) []) = indent + 2 →
      dashSp.isPrefixOf (pyLstrip (lines.getD (i + 1) [])) = false →
      parseBlockAux (fuel + 1) lines i indent (BObj.seq l) =
        obind (parseMapAux fuel lines (i + 1) (indent + 2) []) fun ei =>
          parseBlockAux fuel lines ei.2 indent
            (BObj.seq (l ++ [Node.mapping (dictUpdate
              (dictSet [] (keyOf (itemAt lines i indent))
                (Node.scalar (_parse_scalar (restOf (itemAt lines i indent))))) ei.1)]))) ∧
    parse_yaml (str "items:\n  - name: x\n    value: 1\n  - name: y\n") =
      Option.some (Except.ok [(str "items", Node.sequence
        [Node.mapping [(str "name", Node.scalar (str "x")),
                       (str "value", Node.scalar (str "1"))],
         Node.mapping [(str "name", Node.scalar (str "y"))]])]) := by
  refine ⟨?_, rfl⟩
  intro fuel lines i indent l hlen hns hind hdash hnil hcol hnp hne hlen2 hind2 hnd
  rw [pb_dash_colon fuel lines i indent (BObj.seq l) hlen hns (by omega) (by omega) hdash hnil hcol]
  rw [if_neg hnp, if_neg hne]
  simp only [obind_ok]
  rw [if_pos (show (dictSet [] (keyOf (itemAt lines i indent))
      (Node.scalar (_parse_scalar (restOf (itemAt lines i indent)))), i + 1).2 < lines.length
      ∧ pyIndentOf (lines.getD (dictSet [] (keyOf (itemAt lines i indent))
          (Node.scalar (_parse_scalar (restOf (itemAt lines i indent)))), i + 1).2 []) = indent + 2
      ∧ dashSp.isPrefixOf (pyLstrip (lines.getD (dictSet [] (keyOf (itemAt lines i indent))
          (Node.scalar (_parse_scalar (restOf (itemAt lines i indent)))), i + 1).2 [])) = false
    from ⟨hlen2, hind2, hnd⟩)]
  rw [obind_assoc]
  simp only [obind_ok, orSeq_seq, bAppend_seq, ebind_ok]

/-- C4 witness: the continuation step instantiated on the claim's document at
the first item line. -/
theorem C4_multifield_list_items_witness :
    parseBlockAux 4 [str "items:", str "  - name: x", str "    value: 1", str "  - name: y"]
        1 2 (BObj.seq []) =
      obind (parseMapAux 3 [str "items:", str "  - name: x", str "    value: 1", str "  - name: y"]
          2 4 []) fun ei =>
        parseBlockAux 3 [str "items:", str "  - name: x", str "    value: 1", str "  - name: y"]
          ei.2 2
          (BObj.seq ([] ++ [Node.mapping (dictUpdate
            (dictSet [] (keyOf (itemAt [str "items:", str "  - name: x", str "    value: 1",
                str "  - name: y"] 1 2))
              (Node.scalar (_parse_scalar (restOf (itemAt [str "items:", str "  - name: x",
                str "    value: 1", str "  - name: y"] 1 2))))) ei.1)])) :=
  C4_multifield_list_items.1 3 [str "items:", str "  - name: x", str "    value: 1", str "  - name: y"]
    1 2 [] (by decide) (by decide) (by decide) (by decide) (by decide) (by decide) (by decide)
    (by decide) (by decide) (by decide) (by decide)
